import Mathlib

/-
Formal model of the maven-indexer-mcp core, shallowly embedded in Lean 4.

Each definition is translated from the TypeScript source of the repository:

  * `Config.normalizeScanPatterns`            (src/config.ts, latest revision)
  * `ArtifactResolver.resolveBestArtifact`    (src/artifact_resolver.ts)
  * `ProtoParser.extractTopLevelDefinitions`  (src/proto_parser.ts)
  * `ClassParser.parse`                       (src/class_parser.ts)
  * `Indexer.index / refresh / indexArtifactClasses / searchClass`
                                              (src/indexer.ts, latest revision)
  * `SourceParser.getClassDetail / decompileClass` (src/source_parser.ts)
  * the `get_class_details` resolution logic  (src/index.ts)

External collaborators (SQLite, yauzl, node-semver, the CFR decompiler,
javap, the JS regex engine) are not part of the repository; where their
behaviour matters it is modelled explicitly and the modelling choice is
documented at the definition site.  JS strings are modelled as Lean
`String`s (the code only manipulates them at the character level and the
claims only involve BMP characters, where UTF-16 code-unit order and
code-point order agree).
-/

namespace MavenIndexer

/-! ## Generic string helpers -/

/-- `strContainsSub hay needle` decides whether `needle` occurs in `hay` as a
contiguous substring. -/
def strContainsSub (hay needle : String) : Bool :=
  let h := hay.toList
  let n := needle.toList
  (List.range (h.length + 1)).any (fun i => n.isPrefixOf (h.drop i))

/-- Character-wise string map (JS `replace` over every character). -/
def strMap (f : Char → Char) (s : String) : String :=
  String.mk (s.toList.map f)

/-- ASCII lower-casing (JS `toLowerCase` on the claims' alphabet). -/
def strToLower (s : String) : String :=
  strMap Char.toLower s

/-- JS `endsWith`. -/
def strEndsWith (s post : String) : Bool :=
  post.toList.isSuffixOf s.toList

/-- JS `startsWith`. -/
def strStartsWith (s pre : String) : Bool :=
  pre.toList.isPrefixOf s.toList

/-- JS `includes` of a single character. -/
def strContainsChar (s : String) (c : Char) : Bool :=
  s.toList.contains c

/-- JS `slice(n)`. -/
def strDrop (s : String) (n : Nat) : String :=
  String.mk (s.toList.drop n)

/-- JS `slice(0, -n)`. -/
def strDropRight (s : String) (n : Nat) : String :=
  String.mk (s.toList.take (s.toList.length - n))

/-- JS `trim` (on the ASCII whitespace the claims involve). -/
def strTrim (s : String) : String :=
  String.mk
    (((s.toList.dropWhile Char.isWhitespace).reverse.dropWhile Char.isWhitespace).reverse)

/-- `split` at a separator character, keeping empty pieces — the behaviour
shared by JS `split` and `String.splitOn` for a one-character separator. -/
def splitChars (sep : Char) : List Char → List (List Char)
  | [] => [[]]
  | c :: rest =>
    match splitChars sep rest with
    | [] => [[c]]
    | g :: gs => if c = sep then [] :: g :: gs else (c :: g) :: gs

/-- `split` at a separator character, as strings. -/
def strSplitOnChar (sep : Char) (s : String) : List String :=
  (splitChars sep s.toList).map String.mk

/-! ## Config.normalizeScanPatterns

Translated from `normalizeScanPatterns` in the latest `Config`
(src/config.ts).  JS `Array.prototype.sort()` with no comparator sorts
strings by UTF-16 code units; it is modelled by `List.insertionSort (· ≤ ·)`
on Lean strings, which agrees on BMP characters.  JS `String.trim` is
modelled by `String.trim` (both strip leading/trailing whitespace; the
claims involve only ASCII). -/

/-- The wildcard-stripping step of `normalizeScanPatterns`: a trailing `".*"`
is removed, and a bare `"*"` becomes the empty string (later interpreted as
"scan all"). -/
def stripWildcard (p : String) : String :=
  if strEndsWith p ".*" then strDropRight p 2
  else if p = "*" then ""
  else p

/-- The sub-package absorption loop of `normalizeScanPatterns`, continued
after the first element was kept: an entry equal to the most recently kept
entry `last`, or starting with `last ++ "."`, is skipped; any other entry is
kept and becomes the new `last`. -/
def absorbAux (last : String) : List String → List String
  | [] => []
  | p :: rest =>
    if p = last || strStartsWith p (last ++ ".") then absorbAux last rest
    else p :: absorbAux p rest

/-- The sub-package absorption loop of `normalizeScanPatterns`: the first
entry is always kept. -/
def absorbSubPrefixes : List String → List String
  | [] => []
  | p :: rest => p :: absorbAux p rest

/-- Lexicographic strict order on character lists — the comparison JS
`Array.prototype.sort()` applies to strings (by UTF-16 code units, which
agree with code points on the BMP). -/
def charListLt : List Char → List Char → Bool
  | [], [] => false
  | [], _ :: _ => true
  | _ :: _, [] => false
  | c :: cs, d :: ds => c < d || (c = d && charListLt cs ds)

/-- The sort order of the JS default string sort: `a` sorts no later than
`b`. -/
def strLe (a b : String) : Prop :=
  charListLt b.toList a.toList = false

instance : DecidableRel strLe := fun a b => by unfold strLe; infer_instance

/-- The `clean` intermediate list of `normalizeScanPatterns`: trim every
entry, drop the empty ones, strip wildcards. -/
def cleanPatterns (patterns : List String) : List String :=
  ((patterns.map strTrim).filter (fun p => p ≠ "")).map stripWildcard

/-- `Config.normalizeScanPatterns` (src/config.ts): trim, drop empties, strip
wildcards, return `[]` (= scan all) if any entry was a pure wildcard, then
sort and absorb sub-packages. -/
def normalizeScanPatterns (patterns : List String) : List String :=
  if patterns = [] then []
  else if (cleanPatterns patterns).contains "" then []
  else if cleanPatterns patterns = [] then []
  else absorbSubPrefixes ((cleanPatterns patterns).insertionSort strLe)

/-! ## ArtifactResolver

Translated from `src/artifact_resolver.ts`.  The `semver` npm package is
external to the repository; `parseNumTriple` models `semver.coerce` /
`semver.valid` on versions of the canonical shape `<major>.<minor>.<patch>`
(all-digit components), the only shape the theorems below quantify over.
On that shape `coerce` succeeds, `valid` holds, and `rcompare` on the
coerced and on the original strings agree, which is why the two `rcompare`
steps of `compareSemver` collapse into the single `rcompareTriple` call
below (when the first returns non-zero it is returned directly, and when it
returns zero the second returns zero as well). -/

/-- One row of the `artifacts` table as surfaced to queries (`Artifact` in
src/indexer.ts): no `is_indexed` column. -/
structure Artifact where
  id : Int
  groupId : String
  artifactId : String
  version : String
  abspath : String
  hasSource : Bool
deriving DecidableEq, Repr

/-- Parses an all-digit numeral, as in a canonical semver component. -/
def parseNatDigits (s : String) : Option Nat :=
  if s ≠ "" ∧ s.toList.all Char.isDigit then
    some (s.toList.foldl (fun n c => n * 10 + (c.toNat - 48)) 0)
  else none

/-- Model of `semver.coerce` restricted to canonical `X.Y.Z` numeric
versions (see the section comment). -/
def parseNumTriple (v : String) : Option (Nat × Nat × Nat) :=
  match strSplitOnChar '.' v with
  | [a, b, c] =>
    match parseNatDigits a, parseNatDigits b, parseNatDigits c with
    | some x, some y, some z => some (x, y, z)
    | _, _, _ => none
  | _ => none

/-- Lexicographic strict order on version triples (semver order on versions
without prerelease tags). -/
def tripleLt : Nat × Nat × Nat → Nat × Nat × Nat → Bool
  | (a1, a2, a3), (b1, b2, b3) =>
    decide (a1 < b1) || (decide (a1 = b1) &&
      (decide (a2 < b2) || (decide (a2 = b2) && decide (a3 < b3))))

/-- Model of `semver.rcompare` on version triples: the higher version sorts
first (negative result means the first argument sorts first). -/
def rcompareTriple (va vb : Nat × Nat × Nat) : Int :=
  if tripleLt vb va then -1 else if tripleLt va vb then 1 else 0

/-- `ArtifactResolver.compareSemver` on the modelled version domain: compare
coerced versions, falling back to insertion-id order (later id first) when a
version does not coerce. -/
def compareSemver (a b : Artifact) : Int :=
  match parseNumTriple a.version, parseNumTriple b.version with
  | some va, some vb => rcompareTriple va vb
  | _, _ => b.id - a.id

/-- The full sort comparator built inside `resolveBestArtifact`: an artifact
with sources always sorts before one without, and the configured strategy
comparator breaks ties.  (The `try/catch` around the strategy comparator in
the source is unreachable in the modelled domain: `compareSemver` cannot
throw.) -/
def resolverCmp (cmp : Artifact → Artifact → Int) (a b : Artifact) : Int :=
  if a.hasSource != b.hasSource then (if a.hasSource then -1 else 1) else cmp a b

/-- The "sorts no later than" relation induced by the comparator, used to
model `Array.prototype.sort`.  For a consistent comparator every correct
sort agrees, so the JS engine sort is modelled by insertion sort. -/
def resolverLe (cmp : Artifact → Artifact → Int) (a b : Artifact) : Prop :=
  resolverCmp cmp a b ≤ 0

instance (cmp : Artifact → Artifact → Int) : DecidableRel (resolverLe cmp) :=
  fun a b => by unfold resolverLe; infer_instance

/-- `ArtifactResolver.resolveBestArtifact` with the strategy comparator as a
parameter: sort by `resolverCmp` and take the first element (`undefined`,
i.e. `none`, on an empty list). -/
def resolveBestArtifact (cmp : Artifact → Artifact → Int)
    (artifacts : List Artifact) : Option Artifact :=
  (artifacts.insertionSort (resolverLe cmp)).head?

/-- `resolveBestArtifact` under the default `semver` strategy. -/
def resolveBestArtifactSemver (artifacts : List Artifact) : Option Artifact :=
  resolveBestArtifact compareSemver artifacts

/-- The coerced version triple of an artifact (defaulting, only ever used
under a hypothesis that the version coerces). -/
def tripleOf (a : Artifact) : Nat × Nat × Nat :=
  (parseNumTriple a.version).getD (0, 0, 0)

/-! ## ProtoParser

Translated from `src/proto_parser.ts`.  The parsed record: the option
extraction happens through host regexes over the comment-stripped text; the
claims take the parsed record as given, so only the definition scanner
(`extractTopLevelDefinitions`) and the token splitter it relies on are
embedded. -/

/-- `ProtoInfo` (src/proto_parser.ts).  A `none` field corresponds to a JS
`undefined` (option absent from the file). -/
structure ProtoInfo where
  javaPackage : Option String := none
  javaOuterClassname : Option String := none
  javaMultipleFiles : Bool := false
  package : Option String := none
  definitions : List String := []
deriving DecidableEq, Repr

/-- The token stream used by `extractTopLevelDefinitions`:
`content.split(/([{}])|\s+/)` splits at every brace (kept as its own token)
and at every whitespace run (dropped), then empty/blank pieces are
filtered out. -/
def protoTokenize (content : String) : List String :=
  let flush := fun (acc : List String) (cur : List Char) =>
    if cur = [] then acc else acc ++ [String.mk cur.reverse]
  let step := fun (st : List String × List Char) (c : Char) =>
    let (acc, cur) := st
    if c = '{' || c = '}' then (flush acc cur ++ [String.mk [c]], [])
    else if c.isWhitespace then (flush acc cur, [])
    else (acc, c :: cur)
  let (acc, cur) := content.toList.foldl step ([], [])
  flush acc cur

/-- JS `/^\w+$/`: a non-empty run of word characters. -/
def isWordName (s : String) : Bool :=
  s ≠ "" && s.toList.all (fun c => c.isAlphanum || c = '_')

/-- The loop body of `ProtoParser.extractTopLevelDefinitions`: scan the
token stream tracking brace depth (an `Int`, since a stray `}` drives it
negative exactly as in the source); at depth 0 a `message`/`enum`/`service`
keyword captures the following token as a definition name when it is a word,
consuming it. -/
def extractTopLevelAux : List String → Int → List String
  | [], _ => []
  | [_], _ => []
  | t :: name :: rest2, depth =>
    if t = "\x7b" then extractTopLevelAux (name :: rest2) (depth + 1)
    else if t = "\x7d" then extractTopLevelAux (name :: rest2) (depth - 1)
    else if depth = 0 && (t = "message" || t = "enum" || t = "service") then
      if isWordName name then name :: extractTopLevelAux rest2 depth
      else extractTopLevelAux (name :: rest2) depth
    else extractTopLevelAux (name :: rest2) depth

/-- `ProtoParser.extractTopLevelDefinitions` (src/proto_parser.ts), applied
to comment-stripped content. -/
def extractTopLevelDefinitions (content : String) : List String :=
  extractTopLevelAux (protoTokenize content) 0

/-! ## Proto-resource class derivation inside the Indexer

Translated from the proto branch of the per-artifact commit transaction in
`Indexer.indexArtifactClasses` (src/indexer.ts, latest revision). -/

/-- JS `a || b` on a possibly-undefined string: the fallback is taken when
the value is absent (`undefined`) or empty (falsy `''`). -/
def jsOrElse (o : Option String) (dflt : String) : String :=
  match o with
  | some s => if s = "" then dflt else s
  | none => dflt

/-- JS `p.charAt(0).toUpperCase() + p.slice(1)` (ASCII upcase; an empty
piece stays empty). -/
def capitalizePiece (p : String) : String :=
  match p.toList with
  | [] => ""
  | c :: rest => String.mk (c.toUpper :: rest)

/-- JS `s.replace(sub, "")` with a plain-string pattern: remove the first
occurrence of `sub`, or return `s` unchanged when absent. -/
def removeFirstOccurrence (sub s : String) : String :=
  let rec go : List Char → List Char
    | [] => []
    | c :: rest =>
      if sub.toList.isPrefixOf (c :: rest) then (c :: rest).drop sub.length
      else c :: go rest
  if sub = "" then s else String.mk (go s.toList)

/-- The default outer class name derived from a resource path:
`res.path.split('/').pop()` then drop the first `".proto"` occurrence, then
camel-case the `_`-separated pieces. -/
def protoOuterFromPath (path : String) : String :=
  let baseName := removeFirstOccurrence ".proto" (((strSplitOnChar '/' path).getLast?).getD "")
  String.join ((strSplitOnChar '_' baseName).map capitalizePiece)

/-- Prefix a name with a package, skipping an empty package (the
`packageName ? pkg + "." + name : name` pattern in the source). -/
def pkgJoin (pkg name : String) : String :=
  if pkg ≠ "" then pkg ++ "." ++ name else name

/-- The `classesToIndex` list computed for one proto resource inside
`indexArtifactClasses`: the (package-qualified) outer class first, then each
top-level definition, package-qualified when `javaMultipleFiles` and
outer-class-qualified otherwise. -/
def computeProtoClasses (info : ProtoInfo) (path : String) : List String :=
  let packageName := jsOrElse info.javaPackage (jsOrElse info.package "")
  let outerClassName := jsOrElse info.javaOuterClassname (protoOuterFromPath path)
  let fullOuterClassName := pkgJoin packageName outerClassName
  fullOuterClassName ::
    (if info.javaMultipleFiles then
      info.definitions.map (fun d => pkgJoin packageName d)
    else
      info.definitions.map (fun d => fullOuterClassName ++ "." ++ d))

/-! ## ClassParser

Translated from `src/class_parser.ts`.  The input `Buffer` is modelled as a
list of byte values.  `readUInt8/16BE/32BE` throw a `RangeError` past the end
of the buffer, modelled as `Except`; plain `this.offset += n` advances
without any bounds check, exactly as in the source.  `buffer.toString`
silently clamps its range to the buffer (modelled by `take`/`drop`); its
UTF-8 decoding is modelled for the ASCII range by `asciiDecode`, which is
irrelevant to the claims (only tags and indices matter). -/

/-- The byte content of a JS `Buffer`. -/
abbrev Bytes := List Nat

/-- Decode of a byte slice as a string (faithful on ASCII content). -/
def asciiDecode (bs : Bytes) : String :=
  String.mk (bs.map Char.ofNat)

/-- `readUInt8`: one byte, failing past the end of the buffer. -/
def readU1 (b : Bytes) (off : Nat) : Except String (Nat × Nat) :=
  match b.get? off with
  | some v => .ok (v, off + 1)
  | none => .error "out of range"

/-- `readUInt16BE`: two bytes big-endian, failing past the end. -/
def readU2 (b : Bytes) (off : Nat) : Except String (Nat × Nat) :=
  match b.get? off, b.get? (off + 1) with
  | some v1, some v2 => .ok (v1 * 256 + v2, off + 2)
  | _, _ => .error "out of range"

/-- `readUInt32BE`: four bytes big-endian, failing past the end. -/
def readU4 (b : Bytes) (off : Nat) : Except String (Nat × Nat) :=
  match b.get? off, b.get? (off + 1), b.get? (off + 2), b.get? (off + 3) with
  | some v1, some v2, some v3, some v4 =>
    .ok (((v1 * 256 + v2) * 256 + v3) * 256 + v4, off + 4)
  | _, _, _, _ => .error "out of range"

/-- A stored constant-pool entry.  Only tags 1 (UTF-8) and 7 (Class) are
stored by the parser; every other recognized tag leaves its slot
`undefined`, modelled as `none` in the pool list. -/
inductive CpEntry where
  | utf8 (value : String)
  | classRef (nameIndex : Nat)
deriving DecidableEq, Repr

/-- The `constantPool` sparse array: `new Array(cpCount)` with some slots
assigned.  Indexing past the end or at an unassigned slot yields JS
`undefined`, modelled as `none`. -/
abbrev ConstantPool := List (Option CpEntry)

/-- JS `this.constantPool[i]`: `undefined` out of bounds or unassigned. -/
def poolAt (pool : ConstantPool) (i : Nat) : Option CpEntry :=
  (pool.get? i).getD none

/-- The constant-pool parsing loop of `ClassParser.parse`
(`for (let i = 1; i < cpCount; i++)`).  `fuel` only bounds the structural
recursion; with `fuel ≥ cpCount` it never exhausts before the loop guard
`i < cpCount` does, since `i` increases by at least one per step. -/
def parsePoolAux (b : Bytes) (cpCount : Nat) :
    Nat → Nat → Nat → ConstantPool → Except String (ConstantPool × Nat)
  | 0, _, off, pool => .ok (pool, off)
  | fuel + 1, i, off, pool =>
    if i < cpCount then
      match readU1 b off with
      | .error e => .error e
      | .ok (tag, off1) =>
        if tag = 1 then
          match readU2 b off1 with
          | .error e => .error e
          | .ok (len, off2) =>
            let str := asciiDecode ((b.drop off2).take len)
            parsePoolAux b cpCount fuel (i + 1) (off2 + len) (pool.set i (some (.utf8 str)))
        else if tag = 3 || tag = 4 then
          parsePoolAux b cpCount fuel (i + 1) (off1 + 4) pool
        else if tag = 5 || tag = 6 then
          parsePoolAux b cpCount fuel (i + 2) (off1 + 8) pool
        else if tag = 7 then
          match readU2 b off1 with
          | .error e => .error e
          | .ok (nameIndex, off2) =>
            parsePoolAux b cpCount fuel (i + 1) off2 (pool.set i (some (.classRef nameIndex)))
        else if tag = 8 then
          parsePoolAux b cpCount fuel (i + 1) (off1 + 2) pool
        else if tag = 9 || tag = 10 || tag = 11 then
          parsePoolAux b cpCount fuel (i + 1) (off1 + 4) pool
        else if tag = 12 then
          parsePoolAux b cpCount fuel (i + 1) (off1 + 4) pool
        else if tag = 15 then
          parsePoolAux b cpCount fuel (i + 1) (off1 + 3) pool
        else if tag = 16 then
          parsePoolAux b cpCount fuel (i + 1) (off1 + 2) pool
        else if tag = 17 || tag = 18 then
          parsePoolAux b cpCount fuel (i + 1) (off1 + 4) pool
        else if tag = 19 || tag = 20 then
          parsePoolAux b cpCount fuel (i + 1) (off1 + 2) pool
        else
          .error "Unknown constant pool tag"
    else .ok (pool, off)

/-- `ClassParser.resolveClass`: follow a `Class` constant to its UTF-8 name,
yielding the sentinel `"Unknown"` when the index is dangling (no entry, a
non-Class entry, or a name index that is not a UTF-8 entry). -/
def resolveClass (pool : ConstantPool) (index : Nat) : String :=
  match poolAt pool index with
  | some (.classRef nameIndex) =>
    match poolAt pool nameIndex with
    | some (.utf8 value) => value
    | _ => "Unknown"
  | _ => "Unknown"

/-- The parsed result (`ClassInfo` in src/class_parser.ts). -/
structure ClassInfo where
  className : String
  superClass : Option String := none
  interfaces : List String := []
deriving DecidableEq, Repr

/-- `className.replace(/\//g, '.')`. -/
def slashesToDots (s : String) : String :=
  strMap (fun c => if c = '/' then '.' else c) s

/-- The header phase of `ClassParser.parse`: length check, magic check,
minor/major skip, constant-pool count and constant-pool loop.  Returns the
pool and the offset just past it. -/
def parseHeaderPool (b : Bytes) : Except String (ConstantPool × Nat) :=
  if b.length < 10 then .error "Invalid class file: too short"
  else
    match readU4 b 0 with
    | .error e => .error e
    | .ok (magic, off0) =>
      if magic ≠ 0xCAFEBABE then .error "Invalid magic number"
      else
        match readU2 b off0 with
        | .error e => .error e
        | .ok (_, off1) =>
          match readU2 b off1 with
          | .error e => .error e
          | .ok (_, off2) =>
            match readU2 b off2 with
            | .error e => .error e
            | .ok (cpCount, off3) =>
              parsePoolAux b cpCount cpCount 1 off3 (List.replicate cpCount none)

/-- The interface-index loop of `ClassParser.parse`: read `count` U2
indices. -/
def readInterfaceIndexes (b : Bytes) : Nat → Nat → Except String (List Nat × Nat)
  | 0, off => .ok ([], off)
  | count + 1, off =>
    match readU2 b off with
    | .error e => .error e
    | .ok (idx, off1) =>
      match readInterfaceIndexes b count off1 with
      | .error e => .error e
      | .ok (idxs, off2) => .ok (idx :: idxs, off2)

/-- The index phase of `ClassParser.parse`, after the constant pool: access
flags, `thisClassIndex`, `superClassIndex`, interface count and interface
indices. -/
def parseIndexes (b : Bytes) (off : Nat) : Except String (Nat × Nat × List Nat) :=
  match readU2 b off with
  | .error e => .error e
  | .ok (_, off1) =>
    match readU2 b off1 with
    | .error e => .error e
    | .ok (thisClassIndex, off2) =>
      match readU2 b off2 with
      | .error e => .error e
      | .ok (superClassIndex, off3) =>
        match readU2 b off3 with
        | .error e => .error e
        | .ok (interfacesCount, off4) =>
          match readInterfaceIndexes b interfacesCount off4 with
          | .error e => .error e
          | .ok (idxs, _) => .ok (thisClassIndex, superClassIndex, idxs)

/-- Resolution of the three index groups into the returned `ClassInfo`
(the tail of `ClassParser.parse`), with `/` replaced by `.` and
`superClassIndex == 0` meaning "no superclass". -/
def mkClassInfo (pool : ConstantPool) (thisClassIndex superClassIndex : Nat)
    (interfaceIndexes : List Nat) : ClassInfo :=
  { className := slashesToDots (resolveClass pool thisClassIndex)
    superClass :=
      if superClassIndex = 0 then none
      else some (slashesToDots (resolveClass pool superClassIndex))
    interfaces := interfaceIndexes.map (fun i => slashesToDots (resolveClass pool i)) }

/-- `ClassParser.parse` (src/class_parser.ts): the composition of the two
phases and the resolution step. -/
def classParserParse (b : Bytes) : Except String ClassInfo :=
  match parseHeaderPool b with
  | .error e => .error e
  | .ok (pool, off) =>
    match parseIndexes b off with
    | .error e => .error e
    | .ok (thisClassIndex, superClassIndex, idxs) =>
      .ok (mkClassInfo pool thisClassIndex superClassIndex idxs)

/-- A constant-pool index that resolves all the way to a UTF-8 name: tag 7
at the index and tag 1 at its name index. -/
def validClassRef (pool : ConstantPool) (index : Nat) : Prop :=
  ∃ nameIndex value, poolAt pool index = some (.classRef nameIndex) ∧
    poolAt pool nameIndex = some (.utf8 value)

instance (pool : ConstantPool) (index : Nat) : Decidable (validClassRef pool index) := by
  unfold validClassRef
  match h : poolAt pool index with
  | some (.classRef ni) =>
    match h2 : poolAt pool ni with
    | some (.utf8 v) => exact .isTrue ⟨ni, v, by simp [h, h2]⟩
    | some (.classRef _) => exact .isFalse (by rintro ⟨a, b, ha, hb⟩; simp [h] at ha; subst ha; simp [h2] at hb)
    | none => exact .isFalse (by rintro ⟨a, b, ha, hb⟩; simp [h] at ha; subst ha; simp [h2] at hb)
  | some (.utf8 _) => exact .isFalse (by rintro ⟨a, b, ha, hb⟩; simp [h] at ha)
  | none => exact .isFalse (by rintro ⟨a, b, ha, hb⟩; simp [h] at ha)

/-! ## Store and Indexer

Translated from `src/db/index.ts` and `src/indexer.ts` (latest revision).
SQLite tables are modelled as lists of rows in insertion order;
`AUTOINCREMENT` columns as explicit `next…Id` counters.  `better-sqlite3`
transactions are synchronous, and Node's event loop runs each `await`-free
section atomically, so each store-mutating section of the Indexer is one
state transformation; the per-artifact processing inside a chunk is modelled
in list order (one of the admissible interleavings — each artifact's commit
is a single transaction and no claim depends on intra-chunk order). -/

/-- One row of the `artifacts` table, including the `is_indexed` column. -/
structure ArtifactRow where
  id : Nat
  groupId : String
  artifactId : String
  version : String
  abspath : String
  hasSource : Bool
  isIndexed : Bool
deriving DecidableEq, Repr

/-- One row of the `classes_fts` table. -/
structure ClassRow where
  artifactId : Nat
  className : String
  simpleName : String
deriving DecidableEq, Repr

/-- One row of the `inheritance` table (`kind` is the `type` column,
renamed because `type` is reserved in Lean). -/
structure InheritRow where
  artifactId : Nat
  className : String
  parentClassName : String
  kind : String
deriving DecidableEq, Repr

/-- One row of the `resources` table (`rtype` is the `type` column). -/
structure ResourceRow where
  id : Nat
  artifactId : Nat
  path : String
  content : String
  rtype : String
deriving DecidableEq, Repr

/-- The persistent store (src/db/index.ts schema). `resource_classes` rows
are `(resource_id, class_name)` pairs. -/
structure Store where
  artifacts : List ArtifactRow
  classes_fts : List ClassRow
  inheritance : List InheritRow
  resources : List ResourceRow
  resource_classes : List (Nat × String)
  nextArtifactId : Nat
  nextResourceId : Nat
deriving DecidableEq, Repr

/-- The reset transaction of `Indexer.refresh`: `is_indexed = 0` on every
artifact and all dependent tables emptied. -/
def refreshReset (st : Store) : Store :=
  { st with
    artifacts := st.artifacts.map (fun r => { r with isIndexed := false })
    classes_fts := []
    inheritance := []
    resources := []
    resource_classes := [] }

/-- An artifact as produced by the scanners (`id: 0` placeholder dropped;
the store assigns the real id). -/
structure ScannedArtifact where
  groupId : String
  artifactId : String
  version : String
  abspath : String
  hasSource : Bool
deriving DecidableEq, Repr

/-- The batch `INSERT OR IGNORE INTO artifacts` of `Indexer.index`: a row
with the same `(group_id, artifact_id, version)` already present leaves the
table unchanged; otherwise a new row is appended with `is_indexed = 0`. -/
def upsertArtifact (st : Store) (a : ScannedArtifact) : Store :=
  if st.artifacts.any (fun r =>
      r.groupId = a.groupId && r.artifactId = a.artifactId && r.version = a.version) then st
  else
    { st with
      artifacts := st.artifacts ++
        [{ id := st.nextArtifactId, groupId := a.groupId, artifactId := a.artifactId,
           version := a.version, abspath := a.abspath, hasSource := a.hasSource,
           isIndexed := false }]
      nextArtifactId := st.nextArtifactId + 1 }

/-- The whole scanned batch, inserted inside one transaction. -/
def upsertArtifacts (st : Store) (l : List ScannedArtifact) : Store :=
  l.foldl upsertArtifact st

/-- The condition of the inheritance backfill migration inside
`Indexer.index`: the `inheritance` table is empty while some artifact is
marked indexed. -/
def migrationTriggered (st : Store) : Bool :=
  st.inheritance = [] && st.artifacts.any (fun r => r.isIndexed)

/-- The inheritance backfill migration inside `Indexer.index`: when
triggered, `is_indexed = 0` on every artifact and `classes_fts` cleared. -/
def migrationCheck (st : Store) : Store :=
  if migrationTriggered st then
    { st with
      artifacts := st.artifacts.map (fun r => { r with isIndexed := false })
      classes_fts := [] }
  else st

/-- `SELECT … FROM artifacts WHERE is_indexed = 0`. -/
def findUnindexed (st : Store) : List ArtifactRow :=
  st.artifacts.filter (fun r => !r.isIndexed)

/-- `UPDATE artifacts SET is_indexed = 1 WHERE id = ?`. -/
def setIndexed (st : Store) (artifactId : Nat) : Store :=
  { st with
    artifacts := st.artifacts.map (fun r =>
      if r.id = artifactId then { r with isIndexed := true } else r) }

/-- `Indexer.isPackageIncluded`: an empty pattern list accepts everything;
otherwise the class must equal a pattern or live under it. -/
def isPackageIncluded (className : String) (normalizedPatterns : List String) : Bool :=
  normalizedPatterns = [] ||
    normalizedPatterns.any (fun pattern =>
      className = pattern || strStartsWith className (pattern ++ "."))

/-- One entry of the main archive, with its raw byte content (`.proto`
entries are read back as UTF-8 text, modelled by `asciiDecode`). -/
structure ZipEntry where
  fileName : String
  content : Bytes
deriving DecidableEq, Repr

/-- What happens when `indexArtifactClasses` goes for the artifact's main
archive: the file is absent (`fs.access` throws), the file exists but
`yauzl` cannot open it as a ZIP archive or errors while streaming it
(truncated or not a ZIP — in either case the promise resolves without any
commit), or it opens and streams the given entries. -/
inductive ArchiveStatus where
  | missing
  | unreadable
  | readable (entries : List ZipEntry)

/-- A map from paths to archive statuses, modelling the filesystem. -/
abbrev FileSystem := String → ArchiveStatus

/-- The rows accumulated while streaming one archive, before the commit
transaction: class names, inheritance triples
`(class, parent, extends|implements)`, and proto resources
`(path, content, parsed info)`. -/
structure PendingArtifactData where
  classes : List String
  inheritance : List (String × String × String)
  resources : List (String × String × ProtoInfo)
deriving Repr

/-- The per-entry handler of `indexArtifactClasses`: a `.class` entry is
parsed (parse failures swallowed) and kept when its name has no `$`, is
non-empty and passes the package filter, contributing inheritance edges
(`java.lang.Object` supers dropped); a `.proto` entry is read as text and
parsed (`ProtoParser.parse` is pure and total; its regex-driven option
extraction is the `protoParse` parameter, `extractTopLevelDefinitions`
being its embedded definition scanner); anything else is skipped. -/
def processEntry (protoParse : String → ProtoInfo) (patterns : List String)
    (acc : PendingArtifactData) (e : ZipEntry) : PendingArtifactData :=
  if strEndsWith e.fileName ".class" then
    match classParserParse e.content with
    | .error _ => acc
    | .ok info =>
      if !strContainsChar info.className '$' && info.className.length > 0 then
        if isPackageIncluded info.className patterns then
          { acc with
            classes := acc.classes ++ [info.className]
            inheritance := acc.inheritance ++
              (match info.superClass with
               | some sc =>
                 if sc ≠ "java.lang.Object" then [(info.className, sc, "extends")] else []
               | none => []) ++
              info.interfaces.map (fun i => (info.className, i, "implements")) }
        else acc
      else acc
  else if strEndsWith e.fileName ".proto" then
    let content := asciiDecode e.content
    { acc with resources := acc.resources ++ [(e.fileName, content, protoParse content)] }
  else acc

/-- `cls.split('.').pop() || cls`. -/
def simpleNameOf (cls : String) : String :=
  let last := (((strSplitOnChar '.' cls).getLast?).getD "")
  if last = "" then cls else last

/-- The `SELECT 1 FROM classes_fts WHERE artifact_id = ? AND class_name = ?`
dedup probe. -/
def checkClassExists (classes : List ClassRow) (artifactId : Nat) (className : String) : Bool :=
  classes.any (fun c => c.artifactId = artifactId && c.className = className)

/-- The body of the `for (const fullClassName of classesToIndex)` loop:
insert the `resource_classes` link, then insert a `classes_fts` row unless
one with this artifact and class is already present. -/
def insertLinkStep (artifactId resourceId : Nat) (st2 : Store) (fullClassName : String) :
    Store :=
  let st3 := { st2 with
    resource_classes := st2.resource_classes ++ [(resourceId, fullClassName)] }
  if checkClassExists st3.classes_fts artifactId fullClassName then st3
  else
    { st3 with
      classes_fts := st3.classes_fts ++
        [{ artifactId := artifactId, className := fullClassName,
           simpleName := simpleNameOf fullClassName }] }

/-- The resource part of the commit transaction: insert the resource row,
then for each derived proto class insert a `resource_classes` link and, when
not already present for this artifact, a `classes_fts` row.  This function
is only reached for `.proto` resources, for which `protoInfo` is always
present. -/
def insertResourceAndLinks (st : Store) (artifactId : Nat)
    (res : String × String × ProtoInfo) : Store :=
  let path := res.1
  let content := res.2.1
  let info := res.2.2
  let resourceId := st.nextResourceId
  let st1 := { st with
    resources := st.resources ++
      [{ id := resourceId, artifactId := artifactId, path := path, content := content,
         rtype := "proto" }]
    nextResourceId := resourceId + 1 }
  (computeProtoClasses info path).foldl (insertLinkStep artifactId resourceId) st1

/-- The commit transaction fired on the archive's `end` event: insert all
class rows, all inheritance rows, all resources with their links, and flip
`is_indexed` to 1 for this artifact — atomically. -/
def commitArtifact (st : Store) (a : ArtifactRow) (data : PendingArtifactData) : Store :=
  let st1 := { st with
    classes_fts := st.classes_fts ++ data.classes.map (fun cls =>
      ({ artifactId := a.id, className := cls, simpleName := simpleNameOf cls } : ClassRow)) }
  let st2 := { st1 with
    inheritance := st1.inheritance ++ data.inheritance.map (fun t =>
      ({ artifactId := a.id, className := t.1, parentClassName := t.2.1,
         kind := t.2.2 } : InheritRow)) }
  let st3 := data.resources.foldl (fun s r => insertResourceAndLinks s a.id r) st2
  setIndexed st3 a.id

/-- The jar path probed by `indexArtifactClasses`: `abspath` itself when it
already names a jar (Gradle layout), else
`abspath/<artifactId>-<version>.jar` (Maven layout; `path.join` modelled
with `/`). -/
def jarPathOf (a : ArtifactRow) : String :=
  if strEndsWith a.abspath ".jar" then a.abspath
  else a.abspath ++ "/" ++ a.artifactId ++ "-" ++ a.version ++ ".jar"

/-- `Indexer.indexArtifactClasses`: a missing archive marks the artifact
indexed immediately (pom-only artifacts are not retried); an archive that
cannot be opened resolves without touching the store; a readable archive is
streamed and committed. -/
def indexArtifactClasses (protoParse : String → ProtoInfo) (patterns : List String)
    (fs : FileSystem) (st : Store) (a : ArtifactRow) : Store :=
  match fs (jarPathOf a) with
  | .missing => setIndexed st a.id
  | .unreadable => st
  | .readable entries =>
    commitArtifact st a (entries.foldl (processEntry protoParse patterns) ⟨[], [], []⟩)

/-- Running prefix of a fold, recording the store after each per-artifact
step (each store in the list is one commit point of the run). -/
def foldStores (f : Store → ArtifactRow → Store) : Store → List ArtifactRow → List Store
  | _, [] => []
  | st, a :: rest =>
    let st' := f st a
    st' :: foldStores f st' rest

/-- The successive store states of one `Indexer.index` run: after the batch
upsert, after the migration check, then after each artifact of the
unindexed worklist. -/
def indexRunStores (protoParse : String → ProtoInfo) (patterns : List String)
    (fs : FileSystem) (scanned : List ScannedArtifact) (st : Store) : List Store :=
  let st1 := upsertArtifacts st scanned
  let st2 := migrationCheck st1
  st1 :: st2 :: foldStores (indexArtifactClasses protoParse patterns fs) st2 (findUnindexed st2)

/-- The Indexer's process-wide mutable state: the single-flight
`isIndexing` flag plus the store. -/
structure IndexerState where
  isIndexing : Bool
  store : Store
deriving DecidableEq, Repr

/-- One call to `Indexer.index()`: an immediate no-op return when
`isIndexing` is already set; otherwise the flag is raised, the run executes
(`failAfter = some k` models a thrown error after `k` store-mutating steps,
caught by the surrounding `try/catch`), and the `finally` clause lowers the
flag in every case. -/
def indexCall (protoParse : String → ProtoInfo) (patterns : List String)
    (fs : FileSystem) (scanned : List ScannedArtifact) (failAfter : Option Nat)
    (s : IndexerState) : IndexerState :=
  if s.isIndexing then s
  else
    let trace := indexRunStores protoParse patterns fs scanned s.store
    let run :=
      match failAfter with
      | none => trace
      | some k => trace.take k
    { isIndexing := false, store := run.getLastD s.store }

/-- `Indexer.refresh()`: the reset transaction runs unconditionally (no
check of `isIndexing`), then `index()` is invoked. -/
def refresh (protoParse : String → ProtoInfo) (patterns : List String)
    (fs : FileSystem) (scanned : List ScannedArtifact) (failAfter : Option Nat)
    (s : IndexerState) : IndexerState :=
  indexCall protoParse patterns fs scanned failAfter { s with store := refreshReset s.store }

/-! ## Indexer.searchClass

Translated from `Indexer.searchClass` (src/indexer.ts, latest revision).
The SQL layer is external; its behaviour is modelled as follows:

  * the `JOIN artifacts a ON c.artifact_id = a.id` is `joinRows` (artifact
    ids are unique in every store the pipeline produces, so `find?` is the
    join);
  * SQL `LIKE` (glob branch) is `likeMatch` — `%`/`_` wildcards,
    ASCII-case-insensitive, as in SQLite's default `LIKE`;
  * the `REGEXP` host function (regex branch) is the opaque `regexTest`
    parameter (a JS `RegExp`);
  * the FTS branch builds the MATCH string `"<pattern>"* OR <safeQuery>`
    (just the phrase when `safeQuery` — the pattern with every
    non-alphanumeric character turned into a space — trims to nothing) and
    splices `safeQuery` in unquoted, so FTS5 reads its uppercase words
    `OR` / `AND` / `NOT` as operators.  The query is modelled faithfully:
    `ftsQueryTokens` is the token stream, `ftsParseQuery` the FTS5 query
    grammar — implicit adjacency binds tighter than `NOT`, then `AND`,
    then `OR`, all left-associative; a missing operand (for example a
    trailing `OR` word, as in the pattern `com.test.OR`) is a syntax
    error, which the method's try/catch turns into an empty result — and
    `evalFts` the evaluation at a row: a phrase or term of at least three
    characters is a case-folded substring test on either column, while a
    shorter one yields no trigram token and is dropped by implicit
    adjacency but counts as an empty result set under the explicit
    operators.  Every rule here (keyword classification, precedence,
    associativity, the error cases, the empty-token semantics) was
    checked against SQLite's FTS5 with the trigram tokenizer on the
    repository's own schema, including on operator-bearing class names
    such as `com.test.OR` (error, hence `[]`) and `com.OR.test`
    (disjunctive broadening);
  * `ORDER BY rank` sorts by SQLite's opaque bm25 score, modelled as an
    arbitrary per-row key `rank`;
  * `LIMIT 100` is `take 100` (in the un-`ORDER`ed branches, table order).
-/

/-- SQL `LIKE` matching on lower-cased character lists (`%` = any run,
`_` = one character). -/
def likeAux : List Char → List Char → Bool
  | [], [] => true
  | [], _ :: _ => false
  | '%' :: ps, [] => likeAux ps []
  | '%' :: ps, t :: ts => likeAux ps (t :: ts) || likeAux ('%' :: ps) ts
  | '_' :: ps, _ :: ts => likeAux ps ts
  | '_' :: _, [] => false
  | p :: ps, t :: ts => p = t && likeAux ps ts
  | _ :: _, [] => false
termination_by ps ts => (ps.length, ts.length)

/-- SQL `LIKE`, ASCII-case-insensitive as in SQLite's default. -/
def likeMatch (pattern text : String) : Bool :=
  likeAux (strToLower pattern).toList (strToLower text).toList

/-- The word list of the sanitized free-text part of the FTS query
(`pattern.replace(/[^a-zA-Z0-9]/g, ' ').trim()`, split on spaces). -/
def ftsWords (pattern : String) : List String :=
  ((strSplitOnChar ' ' (strMap (fun c =>
      if c.isAlphanum then c else ' ') pattern)).filter
    (fun w => w ≠ ""))

/-- One token of the built FTS5 MATCH string: the quoted prefix phrase, a
plain word, or one of the operator keywords that an uppercase `OR` / `AND`
/ `NOT` word of the unquoted `safeQuery` part becomes. -/
inductive FtsTok where
  | phrase (p : String)
  | term (w : String)
  | opOr
  | opAnd
  | opNot
deriving DecidableEq, Repr

/-- How FTS5 reads one spliced word of `safeQuery`: exactly `OR`, `AND`
and `NOT` (uppercase) are operators; every other word — including `NEAR`,
which is special only before a parenthesis that the sanitizer can never
produce, and the lowercase forms — is a plain term. -/
def ftsClassify (w : String) : FtsTok :=
  if w = "OR" then .opOr
  else if w = "AND" then .opAnd
  else if w = "NOT" then .opNot
  else .term w

/-- The token stream of the query `"<pattern>"* OR <safeQuery>` (just the
phrase when `safeQuery` is empty). -/
def ftsQueryTokens (pattern : String) : List FtsTok :=
  FtsTok.phrase pattern ::
    (if ftsWords pattern = [] then []
     else FtsTok.opOr :: (ftsWords pattern).map ftsClassify)

/-- An FTS5 query expression: atoms (phrases and terms), implicit
adjacency `andI`, explicit `AND` (`andE`), `OR` (`orE`) and the binary
set-difference `NOT` (`notE`). -/
inductive FtsExpr where
  | atom (p : String)
  | andI (a b : FtsExpr)
  | andE (a b : FtsExpr)
  | orE (a b : FtsExpr)
  | notE (a b : FtsExpr)
deriving DecidableEq, Repr

/-- Whether a phrase or term matches a row: a case-folded substring test
against either indexed column when the text yields at least one trigram
(three or more characters); `none` when it yields no token at all. -/
def ftsAtomEval (c : ClassRow) (p : String) : Option Bool :=
  if 3 ≤ p.length then
    some (strContainsSub (strToLower c.className) (strToLower p) ||
          strContainsSub (strToLower c.simpleName) (strToLower p))
  else none

/-- An operand that yields no token counts as an empty result set wherever
a definite answer is needed. -/
def ftsCoerce (v : Option Bool) : Bool := v.getD false

/-- FTS5 evaluation of a query expression at one row, three-valued:
implicit adjacency ignores tokenless operands, while the explicit
operators treat them as empty result sets (behaviour verified against
SQLite's FTS5 with the trigram tokenizer). -/
def evalFts (c : ClassRow) : FtsExpr → Option Bool
  | .atom p => ftsAtomEval c p
  | .andI a b =>
    match evalFts c a, evalFts c b with
    | none, y => y
    | x, none => x
    | some x, some y => some (x && y)
  | .andE a b => some (ftsCoerce (evalFts c a) && ftsCoerce (evalFts c b))
  | .orE a b => some (ftsCoerce (evalFts c a) || ftsCoerce (evalFts c b))
  | .notE a b => some (ftsCoerce (evalFts c a) && !ftsCoerce (evalFts c b))

/-- A row matches the query when the whole expression evaluates to a
match. -/
def ftsRowMatch (e : FtsExpr) (c : ClassRow) : Bool := ftsCoerce (evalFts c e)

/-- One phrase or term token read as an atom; an operator keyword or the
end of the query in operand position is a syntax error. -/
def ftsParseUnit : List FtsTok → Option (FtsExpr × List FtsTok)
  | .phrase p :: rest => some (.atom p, rest)
  | .term w :: rest => some (.atom w, rest)
  | _ => none

/-- Implicit adjacency chain: juxtaposed phrases and terms bind tighter
than every explicit operator, left-associated. -/
def ftsAdjChain (fuel : Nat) (e : FtsExpr) (toks : List FtsTok) :
    FtsExpr × List FtsTok :=
  match toks with
  | .phrase p :: rest =>
    match fuel with
    | 0 => (e, toks)
    | f + 1 => ftsAdjChain f (.andI e (.atom p)) rest
  | .term w :: rest =>
    match fuel with
    | 0 => (e, toks)
    | f + 1 => ftsAdjChain f (.andI e (.atom w)) rest
  | _ => (e, toks)

/-- An operand at `NOT` level: one mandatory unit extended by adjacency. -/
def ftsParseAdj (fuel : Nat) (toks : List FtsTok) :
    Option (FtsExpr × List FtsTok) :=
  (ftsParseUnit toks).map (fun pr => ftsAdjChain fuel pr.1 pr.2)

/-- Left-associated chain of binary `NOT` over adjacency chains. -/
def ftsNotChain (fuel : Nat) (e : FtsExpr) (toks : List FtsTok) :
    Option (FtsExpr × List FtsTok) :=
  match toks with
  | .opNot :: rest =>
    match fuel with
    | 0 => none
    | f + 1 =>
      match ftsParseAdj f rest with
      | none => none
      | some (b, rest2) => ftsNotChain f (.notE e b) rest2
  | _ => some (e, toks)

/-- An operand at `AND` level. -/
def ftsParseNot (fuel : Nat) (toks : List FtsTok) :
    Option (FtsExpr × List FtsTok) :=
  match ftsParseAdj fuel toks with
  | none => none
  | some (e, rest) => ftsNotChain fuel e rest

/-- Left-associated chain of explicit `AND` over `NOT` chains. -/
def ftsAndChain (fuel : Nat) (e : FtsExpr) (toks : List FtsTok) :
    Option (FtsExpr × List FtsTok) :=
  match toks with
  | .opAnd :: rest =>
    match fuel with
    | 0 => none
    | f + 1 =>
      match ftsParseNot f rest with
      | none => none
      | some (b, rest2) => ftsAndChain f (.andE e b) rest2
  | _ => some (e, toks)

/-- An operand at `OR` level. -/
def ftsParseAnd (fuel : Nat) (toks : List FtsTok) :
    Option (FtsExpr × List FtsTok) :=
  match ftsParseNot fuel toks with
  | none => none
  | some (e, rest) => ftsAndChain fuel e rest

/-- Left-associated chain of `OR` over `AND` chains. -/
def ftsOrChain (fuel : Nat) (e : FtsExpr) (toks : List FtsTok) :
    Option (FtsExpr × List FtsTok) :=
  match toks with
  | .opOr :: rest =>
    match fuel with
    | 0 => none
    | f + 1 =>
      match ftsParseAnd f rest with
      | none => none
      | some (b, rest2) => ftsOrChain f (.orE e b) rest2
  | _ => some (e, toks)

/-- The whole query: an `OR` chain consuming every token. -/
def ftsParseOr (fuel : Nat) (toks : List FtsTok) :
    Option (FtsExpr × List FtsTok) :=
  match ftsParseAnd fuel toks with
  | none => none
  | some (e, rest) => ftsOrChain fuel e rest

/-- Parse the MATCH string built for `pattern`; `none` is the FTS5 syntax
error that the method's try/catch turns into an empty result.  Every
parsing step consumes at least one token, so `length + 1` fuel always
suffices. -/
def ftsParseQuery (pattern : String) : Option FtsExpr :=
  match ftsParseOr ((ftsQueryTokens pattern).length + 1) (ftsQueryTokens pattern) with
  | some (e, []) => some e
  | _ => none

/-- The projection of a joined row to the `Artifact` record returned by
queries. -/
def toArtifact (r : ArtifactRow) : Artifact :=
  { id := (r.id : Int), groupId := r.groupId, artifactId := r.artifactId,
    version := r.version, abspath := r.abspath, hasSource := r.hasSource }

/-- The `classes_fts JOIN artifacts` relation. -/
def joinRows (st : Store) : List (ClassRow × ArtifactRow) :=
  st.classes_fts.filterMap (fun c =>
    (st.artifacts.find? (fun a => a.id = c.artifactId)).map (fun a => (c, a)))

/-- One step of the `Map`-based grouping of result rows by class name
(insertion order preserved, as for a JS `Map`). -/
def insertGroup (acc : List (String × List Artifact)) (name : String) (a : Artifact) :
    List (String × List Artifact) :=
  match acc with
  | [] => [(name, [a])]
  | (n, arts) :: rest =>
    if n = name then (n, arts ++ [a]) :: rest
    else (n, arts) :: insertGroup rest name a

/-- Group result rows by class name, each with its artifact list. -/
def groupRows (rows : List (ClassRow × ArtifactRow)) : List (String × List Artifact) :=
  rows.foldl (fun acc r => insertGroup acc r.1.className (toArtifact r.2)) []

/-- `Indexer.searchClass`: the regex branch on a `regex:` prefix, the
LIKE branch when the pattern holds `*` or `?`, and the FTS branch
otherwise; an FTS5 syntax error in the spliced MATCH string is caught by
the surrounding try/catch and yields the empty result. -/
def searchClass (regexTest : String → String → Bool) (rank : ClassRow → Int)
    (classNamePattern : String) (st : Store) : List (String × List Artifact) :=
  if strStartsWith classNamePattern "regex:" then
    let regex := strDrop classNamePattern 6
    groupRows (((joinRows st).filter (fun r =>
      regexTest regex r.1.className || regexTest regex r.1.simpleName)).take 100)
  else if strContainsChar classNamePattern '*' || strContainsChar classNamePattern '?' then
    let likePattern := strMap (fun c =>
      if c = '*' then '%' else if c = '?' then '_' else c) classNamePattern
    groupRows (((joinRows st).filter (fun r =>
      likeMatch likePattern r.1.className || likeMatch likePattern r.1.simpleName)).take 100)
  else
    match ftsParseQuery classNamePattern with
    | none => []
    | some e =>
      groupRows ((((joinRows st).filter (fun r =>
        ftsRowMatch e r.1)).insertionSort (fun x y => rank x.1 ≤ rank y.1)).take 100)

/-! ## SourceParser and the get_class_details resolution

Translated from `src/source_parser.ts` (latest revision) and the
source/docs branch of `resolveOne` in `src/index.ts`.  External pieces:

  * the source archive is `Option (List SourceEntry)` (`none`: `yauzl`
    cannot open it);
  * a CFR decompiler invocation is a `CfrOutcome` (the missing-CFR-jar
    throw and an `exec` rejection both land in `.errored`);
  * `javap` output for the signatures branch is an `Option (List String)`
    parameter;
  * the line-by-line javadoc/signature heuristic of `SourceParser.parse` is
    the `extract` parameter (signatures and joined doc text); the claims
    quantify over it, because only which optional fields of the result are
    populated matters to them. -/

/-- The three detail kinds of `get_class_details`. -/
inductive DetailKind where
  | signatures
  | docs
  | source
deriving DecidableEq, Repr

/-- `ClassDetail` (src/source_parser.ts); `none` is a JS `undefined`
field. -/
structure ClassDetail where
  className : String
  source : Option String := none
  signatures : Option (List String) := none
  doc : Option String := none
  language : Option String := none
deriving DecidableEq, Repr

/-- One text entry of a source archive. -/
structure SourceEntry where
  fileName : String
  content : String
deriving DecidableEq, Repr

/-- A source-bearing ZIP as seen by `SourceParser.getClassDetail`: `none`
when it cannot be opened. -/
abbrev SourceZip := Option (List SourceEntry)

/-- The outcome of one CFR subprocess invocation. -/
inductive CfrOutcome where
  | errored
  | ran (stdout stderr : String)
deriving DecidableEq, Repr

/-- JS truthiness of a possibly-undefined string: `undefined` and `''` are
falsy. -/
def jsTruthyStr : Option String → Bool
  | none => false
  | some s => s ≠ ""

/-- The two entry names probed inside an archive for a class:
`com/example/MyClass.java` and `.kt`. -/
def sourceCandidates (className : String) : List String :=
  let basePath := strMap (fun c => if c = '.' then '/' else c) className
  [basePath ++ ".java", basePath ++ ".kt"]

/-- The archive scan of `getClassDetail`: the first entry (in archive
order) whose name is one of the candidates; `none` when the archive cannot
be opened or holds no candidate. -/
def zipFindCandidate (zip : SourceZip) (className : String) : Option SourceEntry :=
  zip.bind (fun entries =>
    entries.find? (fun e => (sourceCandidates className).contains e.fileName))

/-- `SourceParser.parse`: for `source` requests the text is returned as the
`source` field; for `docs` (and the unreached `signatures` case) the
heuristic extraction fills `signatures`/`doc` and leaves `source`
undefined. -/
def sourceParserParse (extract : String → List String × String)
    (className sourceText : String) (t : DetailKind) (language : String) : ClassDetail :=
  match t with
  | .source => { className := className, source := some sourceText, language := some language }
  | .docs =>
    let (sigs, docs) := extract sourceText
    { className := className, signatures := some sigs, doc := some docs,
      language := some language }
  | .signatures =>
    let (sigs, _) := extract sourceText
    { className := className, signatures := some sigs, language := some language }

/-- `SourceParser.decompileClass`: rethrows CFR failures and a
stderr-with-empty-stdout outcome; parses a non-empty stdout; returns the
empty stdout as an (empty, hence falsy) `source` field otherwise. -/
def decompileClass (extract : String → List String × String) (cfr : CfrOutcome)
    (className : String) (t : DetailKind) : Except Unit ClassDetail :=
  match cfr with
  | .errored => .error ()
  | .ran stdout stderr =>
    if stdout = "" && stderr ≠ "" then .error ()
    else if stdout ≠ "" then .ok (sourceParserParse extract className stdout t "java")
    else .ok { className := className, source := some stdout, language := some "java" }

/-- The observable outcome of one `getClassDetail` call, instrumented with
whether the decompiler was invoked on this archive and whether the returned
detail's text came out of the decompiler. -/
structure GetDetailOutcome where
  result : Except Unit (Option ClassDetail)
  decompInvoked : Bool
  fromDecomp : Bool
deriving Repr

/-- `SourceParser.getClassDetail` on one archive: the signatures branch
goes through `javap`; otherwise the archive is scanned for the source file
and, on a miss (including an unopenable archive), `decompileClass` runs
over the same path. -/
def getClassDetail (extract : String → List String × String)
    (javapResult : Option (List String)) (zip : SourceZip) (cfr : CfrOutcome)
    (className : String) (t : DetailKind) : GetDetailOutcome :=
  match t with
  | .signatures =>
    { result := .ok (javapResult.map (fun sigs =>
        { className := className, signatures := some sigs, language := some "java" }))
      decompInvoked := false, fromDecomp := false }
  | _ =>
    match zipFindCandidate zip className with
    | some e =>
      let language := if strEndsWith e.fileName ".kt" then "kotlin" else "java"
      { result := .ok (some (sourceParserParse extract className e.content t language))
        decompInvoked := false, fromDecomp := false }
    | none =>
      match decompileClass extract cfr className t with
      | .ok d => { result := .ok (some d), decompInvoked := true, fromDecomp := true }
      | .error _ => { result := .error (), decompInvoked := true, fromDecomp := false }

/-- The observable outcome of the source/docs branch of `resolveOne` in
src/index.ts: the detail (if any), the `usedDecompilation` flag the handler
computes, whether the decompiler was invoked over the main archive, and
whether the returned detail's text actually came out of the decompiler. -/
structure ResolveOutcome where
  detail : Option ClassDetail
  usedDecompilation : Bool
  mainDecompInvoked : Bool
  textFromDecomp : Bool
deriving Repr

/-- The source/docs branch of `resolveOne` (src/index.ts): when the
artifact has sources, try the `-sources.jar` first (errors caught and
dropped); when that produced nothing, try the main archive, and flag
`usedDecompilation` exactly when that second call returned a detail with a
truthy `source` field. -/
def resolveClassDetail (extract : String → List String × String) (hasSource : Bool)
    (srcZip mainZip : SourceZip) (cfrSrc cfrMain : CfrOutcome)
    (className : String) (t : DetailKind) : ResolveOutcome :=
  let step1 : Option ClassDetail × Bool :=
    if hasSource then
      match getClassDetail extract none srcZip cfrSrc className t with
      | ⟨.ok d, _, f⟩ => (d, f)
      | ⟨.error _, _, _⟩ => (none, false)
    else (none, false)
  match step1 with
  | (some d, f) =>
    { detail := some d, usedDecompilation := false, mainDecompInvoked := false,
      textFromDecomp := f }
  | (none, _) =>
    match getClassDetail extract none mainZip cfrMain className t with
    | ⟨.ok d, di, f⟩ =>
      { detail := d
        usedDecompilation := match d with | some dd => jsTruthyStr dd.source | none => false
        mainDecompInvoked := di
        textFromDecomp := f && d.isSome }
    | ⟨.error _, di, _⟩ =>
      { detail := none, usedDecompilation := false, mainDecompInvoked := di,
        textFromDecomp := false }

/-! ## Concrete fixtures used by witnesses and counterexamples -/

/-- A proto parse that reports no options and no definitions (stand-in for
`ProtoParser.parse` where its output is irrelevant). -/
def trivialProtoParse : String → ProtoInfo := fun _ => {}

/-- An extraction heuristic returning nothing (stand-in where only the
shape of the parse result matters). -/
def noExtract : String → List String × String := fun _ => ([], "")

/-- A filesystem on which every archive open fails (present but truncated
or not a ZIP). -/
def unreadableFs : FileSystem := fun _ => .unreadable

/-- A filesystem on which every archive is absent. -/
def missingFs : FileSystem := fun _ => .missing

/-- An empty store. -/
def emptyStore : Store := ⟨[], [], [], [], [], 1, 1⟩

/-- An unindexed Maven-layout artifact row. -/
def ctrArt : ArtifactRow :=
  ⟨1, "com.test", "demo", "1.0.0", "/repo/com/test/demo/1.0.0", false, false⟩

/-- A store holding only `ctrArt`. -/
def ctrStore : Store := ⟨[ctrArt], [], [], [], [], 2, 1⟩

/-- An indexed artifact row. -/
def c2Art : ArtifactRow := ⟨1, "g", "a", "1.0.0", "/m/g/a/1.0.0", false, true⟩

/-- A store with one indexed artifact, one class row and one inheritance
row. -/
def c2Store : Store :=
  ⟨[c2Art], [⟨1, "g.a.C", "C"⟩], [⟨1, "g.a.C", "g.a.P", "extends"⟩], [], [], 2, 1⟩

/-- A store with one indexed artifact and a class row but an empty
inheritance table (the migration-check trigger condition). -/
def c9Store : Store := ⟨[c2Art], [⟨1, "g.a.C", "C"⟩], [], [], [], 2, 1⟩

/-- A store indexing a single two-character class name `Ab`. -/
def c4ShortStore : Store :=
  ⟨[⟨1, "g", "a", "1.0.0", "/m", false, true⟩], [⟨1, "Ab", "Ab"⟩], [], [], [], 2, 1⟩

/-- A store indexing the single class `com.example.Foo`. -/
def c4FooStore : Store :=
  ⟨[⟨1, "g", "a", "1.0.0", "/m", false, true⟩],
   [⟨1, "com.example.Foo", "Foo"⟩], [], [], [], 2, 1⟩

/-- A store indexing the class `com.test.OR` — whose last name segment is
the FTS5 `OR` keyword — next to an unrelated class `aaa.bbb`. -/
def c4OrStore : Store :=
  ⟨[⟨1, "g", "a", "1.0.0", "/m", false, true⟩],
   [⟨1, "com.test.OR", "OR"⟩, ⟨1, "aaa.bbb", "bbb"⟩], [], [], [], 2, 1⟩

/-- A class-file buffer whose header and constant pool parse (magic
`CAFEBABE`, pool count 1, i.e. an empty pool) and whose `thisClassIndex`
is the dangling index 5, with no superclass and no interfaces. -/
def c10Bytes : Bytes :=
  [0xCA, 0xFE, 0xBA, 0xBE, 0, 0, 0, 0, 0, 1, 0, 0, 0, 5, 0, 0, 0, 0]

/-- A main archive bundling the source file of `com.x.Foo`. -/
def fooJavaEntries : List SourceEntry := [⟨"com/x/Foo.java", "class Foo"⟩]

/-- Agreement of two artifact rows on every column except `is_indexed`. -/
def sameArtifactFrame (r r' : ArtifactRow) : Prop :=
  r'.id = r.id ∧ r'.groupId = r.groupId ∧ r'.artifactId = r.artifactId ∧
    r'.version = r.version ∧ r'.abspath = r.abspath ∧ r'.hasSource = r.hasSource

/-! # Theorems -/

/-! ## C3: single-flight index() -/

/-- C3: while one `index()` run is in progress every concurrent `index()`
call returns immediately with the state — and hence the store — unchanged
(no row written); a call from the idle state leaves `isIndexing` false on
completion whether the run finishes normally (`failAfter = none`) or throws
at any point (`failAfter = some k`); and every intermediate commit point of
a run carries `isIndexing = true`, so a concurrent call arriving there is a
no-op. -/
theorem C3_index_single_flight (protoParse : String → ProtoInfo) (patterns : List String)
    (fs : FileSystem) (scanned : List ScannedArtifact) (failAfter : Option Nat)
    (s : IndexerState) :
    (s.isIndexing = true → indexCall protoParse patterns fs scanned failAfter s = s)
  ∧ (s.isIndexing = false →
      (indexCall protoParse patterns fs scanned failAfter s).isIndexing = false)
  ∧ (∀ st' ∈ indexRunStores protoParse patterns fs scanned s.store,
      ∀ (pp2 : String → ProtoInfo) (pat2 : List String) (fs2 : FileSystem)
        (sc2 : List ScannedArtifact) (fa2 : Option Nat),
        indexCall pp2 pat2 fs2 sc2 fa2 ⟨true, st'⟩ = ⟨true, st'⟩) := by
  refine ⟨fun h => ?_, fun h => ?_, fun st' _ pp2 pat2 fs2 sc2 fa2 => ?_⟩
  · simp [indexCall, h]
  · simp [indexCall, h]
  · simp [indexCall]

/-- Witness for C3 at a concrete busy state and a concrete idle state. -/
theorem C3_index_single_flight_witness :
    indexCall trivialProtoParse [] missingFs [] none ⟨true, c2Store⟩ = ⟨true, c2Store⟩
  ∧ (indexCall trivialProtoParse [] missingFs [] none ⟨false, c2Store⟩).isIndexing = false :=
  ⟨(C3_index_single_flight trivialProtoParse [] missingFs [] none ⟨true, c2Store⟩).1 rfl,
   (C3_index_single_flight trivialProtoParse [] missingFs [] none ⟨false, c2Store⟩).2.1 rfl⟩

/-! ## C2: refresh() and the single-flight guard -/

/-- C2: the claim requires `refresh()` to take the same single-flight guard
as `index()` and wait until Idle, never dropping the re-index pass.  The
code instead resets the store unconditionally and then calls `index()`,
which no-ops while the flag is up.  At a state where an indexing run is in
flight (`isIndexing = true`), `refresh()` empties every dependent table and
resets `is_indexed` while the other run is still going, and performs no
re-index at all — the refresh request's re-index pass is silently dropped
(contrast the idle state, where the same call re-indexes the artifact). -/
theorem C2_refresh_while_indexing_clobbers_and_drops :
    refresh trivialProtoParse [] missingFs [] none ⟨true, c2Store⟩
      = ⟨true, refreshReset c2Store⟩
  ∧ (refreshReset c2Store).classes_fts = []
  ∧ (refreshReset c2Store).inheritance = []
  ∧ (refreshReset c2Store).artifacts = [{ c2Art with isIndexed := false }]
  ∧ refresh trivialProtoParse [] missingFs [] none ⟨false, c2Store⟩
      = ⟨false, setIndexed (refreshReset c2Store) 1⟩
  ∧ (setIndexed (refreshReset c2Store) 1).artifacts = [c2Art] := by decide

/-! ## C1: archive failures in indexArtifactClasses -/

/-- C1 as stated is false: here the artifact's main archive exists on disk
but cannot be opened as a ZIP, `indexArtifactClasses` completes, and the
store is returned unchanged — `is_indexed` is not set and the artifact is
still in the unindexed queue afterwards. -/
theorem C1_counterexample :
    indexArtifactClasses trivialProtoParse [] unreadableFs ctrStore ctrArt = ctrStore
  ∧ ctrArt.isIndexed = false
  ∧ findUnindexed (indexArtifactClasses trivialProtoParse [] unreadableFs ctrStore ctrArt)
      = [ctrArt] := by decide

/-- C1 (amended): `indexArtifactClasses` always completes without error; an
artifact whose archive file is absent entirely (pom-only) is marked indexed
and not retried, but an artifact whose archive exists and cannot be opened
as a ZIP leaves the store unchanged — its `is_indexed` flag stays false and
it returns to the unindexed queue on subsequent `index()` runs. -/
theorem C1_amended_archive_failures (protoParse : String → ProtoInfo)
    (patterns : List String) (fs : FileSystem) (st : Store) (a : ArtifactRow) :
    (fs (jarPathOf a) = .missing →
      indexArtifactClasses protoParse patterns fs st a = setIndexed st a.id)
  ∧ (fs (jarPathOf a) = .missing → a ∈ st.artifacts →
      { a with isIndexed := true } ∈
        (indexArtifactClasses protoParse patterns fs st a).artifacts)
  ∧ (fs (jarPathOf a) = .unreadable →
      indexArtifactClasses protoParse patterns fs st a = st)
  ∧ (fs (jarPathOf a) = .unreadable → a ∈ st.artifacts → a.isIndexed = false →
      a ∈ findUnindexed (indexArtifactClasses protoParse patterns fs st a)) := by
  refine ⟨fun h => ?_, fun h ha => ?_, fun h => ?_, fun h ha hidx => ?_⟩
  · simp [indexArtifactClasses, h]
  · simp only [indexArtifactClasses, h, setIndexed]
    refine List.mem_map.mpr ⟨a, ha, ?_⟩
    simp
  · simp [indexArtifactClasses, h]
  · simp only [indexArtifactClasses, h, findUnindexed]
    exact List.mem_filter.mpr ⟨ha, by simp [hidx]⟩

/-- Witness for C1 (amended) at a concrete pom-only artifact and a concrete
corrupt archive. -/
theorem C1_amended_archive_failures_witness :
    indexArtifactClasses trivialProtoParse [] missingFs ctrStore ctrArt
      = setIndexed ctrStore 1
  ∧ ctrArt ∈ findUnindexed
      (indexArtifactClasses trivialProtoParse [] unreadableFs ctrStore ctrArt) :=
  ⟨(C1_amended_archive_failures trivialProtoParse [] missingFs ctrStore ctrArt).1 rfl,
   (C1_amended_archive_failures trivialProtoParse [] unreadableFs ctrStore ctrArt).2.2.2
     rfl (by decide) rfl⟩

/-! ## C9: frame properties of index() over existing artifact rows -/

theorem sameArtifactFrame_refl (r : ArtifactRow) : sameArtifactFrame r r := by
  simp [sameArtifactFrame]

theorem sameArtifactFrame_trans {r r2 r3 : ArtifactRow}
    (h1 : sameArtifactFrame r r2) (h2 : sameArtifactFrame r2 r3) :
    sameArtifactFrame r r3 := by
  obtain ⟨a1, b1, c1, d1, e1, f1⟩ := h1
  obtain ⟨a2, b2, c2, d2, e2, f2⟩ := h2
  exact ⟨a2.trans a1, b2.trans b1, c2.trans c1, d2.trans d1, e2.trans e1, f2.trans f1⟩

theorem upsertArtifact_artifacts (st : Store) (a : ScannedArtifact) :
    ∃ suffix, (upsertArtifact st a).artifacts = st.artifacts ++ suffix := by
  unfold upsertArtifact
  split
  · exact ⟨[], by simp⟩
  · exact ⟨_, rfl⟩

theorem upsertArtifacts_artifacts (st : Store) (l : List ScannedArtifact) :
    ∃ suffix, (upsertArtifacts st l).artifacts = st.artifacts ++ suffix := by
  induction l generalizing st with
  | nil => exact ⟨[], by simp [upsertArtifacts]⟩
  | cons a rest ih =>
    obtain ⟨s1, h1⟩ := upsertArtifact_artifacts st a
    obtain ⟨s2, h2⟩ := ih (upsertArtifact st a)
    refine ⟨s1 ++ s2, ?_⟩
    have : upsertArtifacts st (a :: rest) = upsertArtifacts (upsertArtifact st a) rest := rfl
    rw [this, h2, h1, List.append_assoc]

theorem migrationCheck_frame (st : Store) (r : ArtifactRow) (hr : r ∈ st.artifacts) :
    ∃ r' ∈ (migrationCheck st).artifacts, sameArtifactFrame r r' ∧
      (r.isIndexed = true → r'.isIndexed = true ∨ migrationTriggered st = true) := by
  unfold migrationCheck
  split
  · rename_i h
    refine ⟨{ r with isIndexed := false }, ?_, ?_, fun _ => Or.inr h⟩
    · exact List.mem_map.mpr ⟨r, hr, rfl⟩
    · simp [sameArtifactFrame]
  · exact ⟨r, hr, sameArtifactFrame_refl r, fun h => Or.inl h⟩

theorem setIndexed_frame (st : Store) (aid : Nat) (r : ArtifactRow) (hr : r ∈ st.artifacts) :
    ∃ r' ∈ (setIndexed st aid).artifacts, sameArtifactFrame r r' ∧
      (r.isIndexed = true → r'.isIndexed = true) := by
  unfold setIndexed
  refine ⟨if r.id = aid then { r with isIndexed := true } else r,
    List.mem_map.mpr ⟨r, hr, rfl⟩, ?_⟩
  split
  · exact ⟨by simp [sameArtifactFrame], fun _ => rfl⟩
  · exact ⟨sameArtifactFrame_refl r, fun h => h⟩

theorem foldl_insertLinkStep_artifacts (aid rid : Nat) (names : List String) (st0 : Store) :
    (names.foldl (insertLinkStep aid rid) st0).artifacts = st0.artifacts := by
  induction names generalizing st0 with
  | nil => rfl
  | cons n rest ih =>
    have hstep : (insertLinkStep aid rid st0 n).artifacts = st0.artifacts := by
      simp only [insertLinkStep]
      split <;> rfl
    rw [List.foldl_cons, ih, hstep]

theorem insertResourceAndLinks_artifacts (st : Store) (aid : Nat)
    (res : String × String × ProtoInfo) :
    (insertResourceAndLinks st aid res).artifacts = st.artifacts := by
  unfold insertResourceAndLinks
  rw [foldl_insertLinkStep_artifacts]

theorem foldl_insertResourceAndLinks_artifacts (aid : Nat)
    (rs : List (String × String × ProtoInfo)) (st0 : Store) :
    ((rs.foldl (fun s r => insertResourceAndLinks s aid r) st0).artifacts) = st0.artifacts := by
  induction rs generalizing st0 with
  | nil => rfl
  | cons r rest ih => rw [List.foldl_cons, ih, insertResourceAndLinks_artifacts]

theorem commitArtifact_frame (st : Store) (a : ArtifactRow) (data : PendingArtifactData)
    (r : ArtifactRow) (hr : r ∈ st.artifacts) :
    ∃ r' ∈ (commitArtifact st a data).artifacts, sameArtifactFrame r r' ∧
      (r.isIndexed = true → r'.isIndexed = true) := by
  unfold commitArtifact
  apply setIndexed_frame
  rw [foldl_insertResourceAndLinks_artifacts]
  exact hr

theorem indexArtifactClasses_frame (pp : String → ProtoInfo) (pat : List String)
    (fs : FileSystem) (st : Store) (a : ArtifactRow) (r : ArtifactRow)
    (hr : r ∈ st.artifacts) :
    ∃ r' ∈ (indexArtifactClasses pp pat fs st a).artifacts, sameArtifactFrame r r' ∧
      (r.isIndexed = true → r'.isIndexed = true) := by
  unfold indexArtifactClasses
  cases fs (jarPathOf a) with
  | missing => exact setIndexed_frame st a.id r hr
  | unreadable => exact ⟨r, hr, sameArtifactFrame_refl r, fun h => h⟩
  | readable entries => exact commitArtifact_frame st a _ r hr

theorem foldl_indexArtifactClasses_frame (pp : String → ProtoInfo) (pat : List String)
    (fs : FileSystem) (l : List ArtifactRow) (st : Store) (r : ArtifactRow)
    (hr : r ∈ st.artifacts) :
    ∃ r' ∈ (l.foldl (indexArtifactClasses pp pat fs) st).artifacts,
      sameArtifactFrame r r' ∧ (r.isIndexed = true → r'.isIndexed = true) := by
  induction l generalizing st r with
  | nil => exact ⟨r, hr, sameArtifactFrame_refl r, fun h => h⟩
  | cons a rest ih =>
    obtain ⟨r2, hr2, hf2, hm2⟩ := indexArtifactClasses_frame pp pat fs st a r hr
    obtain ⟨r3, hr3, hf3, hm3⟩ := ih (indexArtifactClasses pp pat fs st a) r2 hr2
    exact ⟨r3, hr3, sameArtifactFrame_trans hf2 hf3, fun h => hm3 (hm2 h)⟩

theorem foldStores_getLastD (f : Store → ArtifactRow → Store) (l : List ArtifactRow)
    (st : Store) : (foldStores f st l).getLastD st = l.foldl f st := by
  induction l generalizing st with
  | nil => rfl
  | cons a rest ih =>
    show ((f st a) :: foldStores f (f st a) rest).getLastD st = _
    rw [List.getLastD_cons, ih]
    rfl

theorem indexCall_idle_run (pp : String → ProtoInfo) (pat : List String) (fs : FileSystem)
    (scanned : List ScannedArtifact) (st : Store) :
    indexCall pp pat fs scanned none ⟨false, st⟩ =
      ⟨false, (findUnindexed (migrationCheck (upsertArtifacts st scanned))).foldl
        (indexArtifactClasses pp pat fs) (migrationCheck (upsertArtifacts st scanned))⟩ := by
  have h : indexCall pp pat fs scanned none ⟨false, st⟩ =
      ⟨false, (indexRunStores pp pat fs scanned st).getLastD st⟩ := rfl
  rw [h]
  show (⟨false, ((upsertArtifacts st scanned) ::
      (migrationCheck (upsertArtifacts st scanned)) ::
      foldStores (indexArtifactClasses pp pat fs)
        (migrationCheck (upsertArtifacts st scanned))
        (findUnindexed (migrationCheck (upsertArtifacts st scanned)))).getLastD st⟩ :
    IndexerState) = _
  rw [List.getLastD_cons, List.getLastD_cons, foldStores_getLastD]

/-- C9 as stated is false: at this store one pre-existing artifact row is
marked indexed while the inheritance table is empty, so a plain `index()`
run — with an empty scan, no `refresh()` in sight, and an archive that
`indexArtifactClasses` cannot even open — still flips the row's
`is_indexed` from 1 to 0, through the inheritance-migration consistency
check inside `index()`. -/
theorem C9_counterexample :
    (indexCall trivialProtoParse [] unreadableFs [] none ⟨false, c9Store⟩).store.artifacts
      = [{ c2Art with isIndexed := false }]
  ∧ c2Art.isIndexed = true
  ∧ c9Store.artifacts = [c2Art]
  ∧ migrationTriggered (upsertArtifacts c9Store []) = true := by decide

/-- C9 (amended): the batch upsert of `index()` is insert-or-ignore, so it
only ever appends rows and never touches an existing one; across a whole
`index()` run every pre-existing artifact row keeps its id, coordinates,
`abspath` and `has_source`, and its `is_indexed` value can change in only
two ways — `indexArtifactClasses` flipping it to 1, or the
inheritance-migration consistency check (empty inheritance table while some
artifact is marked indexed) resetting it to 0: when that check does not
fire, an indexed row stays indexed. -/
theorem C9_amended_index_frame (pp : String → ProtoInfo) (pat : List String)
    (fs : FileSystem) (scanned : List ScannedArtifact) (st : Store) :
    (∃ suffix, (upsertArtifacts st scanned).artifacts = st.artifacts ++ suffix)
  ∧ (∀ r ∈ st.artifacts,
      ∃ r' ∈ (indexCall pp pat fs scanned none ⟨false, st⟩).store.artifacts,
        sameArtifactFrame r r' ∧
          (r.isIndexed = true → r'.isIndexed = true ∨
            migrationTriggered (upsertArtifacts st scanned) = true)) := by
  refine ⟨upsertArtifacts_artifacts st scanned, fun r hr => ?_⟩
  have hr1 : r ∈ (upsertArtifacts st scanned).artifacts := by
    obtain ⟨suffix, hs⟩ := upsertArtifacts_artifacts st scanned
    rw [hs]
    exact List.mem_append_left _ hr
  obtain ⟨r2, hr2, hf2, hm2⟩ := migrationCheck_frame (upsertArtifacts st scanned) r hr1
  obtain ⟨r3, hr3, hf3, hm3⟩ := foldl_indexArtifactClasses_frame pp pat fs
    (findUnindexed (migrationCheck (upsertArtifacts st scanned)))
    (migrationCheck (upsertArtifacts st scanned)) r2 hr2
  rw [indexCall_idle_run]
  refine ⟨r3, hr3, sameArtifactFrame_trans hf2 hf3, fun h => ?_⟩
  rcases hm2 h with h2 | h2
  · exact Or.inl (hm3 h2)
  · exact Or.inr h2

/-- Witness for C9 (amended) at a concrete store and scan batch. -/
theorem C9_amended_index_frame_witness :
    ∃ r' ∈ (indexCall trivialProtoParse [] missingFs
        [⟨"g", "b", "1.0.0", "/m/g/b/1.0.0", false⟩] none ⟨false, c2Store⟩).store.artifacts,
      sameArtifactFrame c2Art r' ∧
        (c2Art.isIndexed = true → r'.isIndexed = true ∨
          migrationTriggered (upsertArtifacts c2Store
            [⟨"g", "b", "1.0.0", "/m/g/b/1.0.0", false⟩]) = true) :=
  (C9_amended_index_frame trivialProtoParse [] missingFs
    [⟨"g", "b", "1.0.0", "/m/g/b/1.0.0", false⟩] c2Store).2 c2Art (by decide)

/-! ## C10: ClassParser never fails on dangling class references -/

theorem resolveClass_of_not_valid (pool : ConstantPool) (i : Nat)
    (h : ¬ validClassRef pool i) : resolveClass pool i = "Unknown" := by
  unfold resolveClass
  match hp : poolAt pool i with
  | some (.classRef ni) =>
    match hn : poolAt pool ni with
    | some (.utf8 v) => exact absurd ⟨ni, v, hp, hn⟩ h
    | some (.classRef _) => simp [hn]
    | none => simp [hn]
  | some (.utf8 _) => rfl
  | none => rfl

theorem slashesToDots_unknown : slashesToDots "Unknown" = "Unknown" := by decide

/-- C10: for every buffer whose magic and constant-pool phase succeeds and
whose header indices can be read (so that `thisClassIndex`,
`superClassIndex` and the interface indices exist at all),
`ClassParser.parse` succeeds — it never raises for a dangling class
reference — and every index that does not resolve through a tag-7 `Class`
entry to a tag-1 UTF-8 entry yields the sentinel name `"Unknown"` in the
corresponding slot of the result. -/
theorem C10_dangling_refs_yield_unknown (b : Bytes) (pool : ConstantPool) (off : Nat)
    (thisClassIndex superClassIndex : Nat) (interfaceIndexes : List Nat)
    (hp : parseHeaderPool b = .ok (pool, off))
    (hi : parseIndexes b off = .ok (thisClassIndex, superClassIndex, interfaceIndexes)) :
    classParserParse b =
      .ok (mkClassInfo pool thisClassIndex superClassIndex interfaceIndexes)
  ∧ (¬ validClassRef pool thisClassIndex →
      (mkClassInfo pool thisClassIndex superClassIndex interfaceIndexes).className
        = "Unknown")
  ∧ (superClassIndex ≠ 0 → ¬ validClassRef pool superClassIndex →
      (mkClassInfo pool thisClassIndex superClassIndex interfaceIndexes).superClass
        = some "Unknown")
  ∧ (∀ (k i : Nat), interfaceIndexes[k]? = some i → ¬ validClassRef pool i →
      (mkClassInfo pool thisClassIndex superClassIndex interfaceIndexes).interfaces[k]?
        = some "Unknown") := by
  refine ⟨?_, ?_, ?_, ?_⟩
  · simp [classParserParse, hp, hi]
  · intro h
    show slashesToDots (resolveClass pool thisClassIndex) = "Unknown"
    rw [resolveClass_of_not_valid pool thisClassIndex h, slashesToDots_unknown]
  · intro hz h
    show (if superClassIndex = 0 then none
      else some (slashesToDots (resolveClass pool superClassIndex))) = some "Unknown"
    rw [if_neg hz, resolveClass_of_not_valid pool superClassIndex h, slashesToDots_unknown]
  · intro k i hk h
    show (interfaceIndexes.map (fun j => slashesToDots (resolveClass pool j)))[k]?
      = some "Unknown"
    rw [List.getElem?_map, hk]
    simp [resolveClass_of_not_valid pool i h, slashesToDots_unknown]

/-- Witness for C10 at a concrete buffer with an empty constant pool and
the dangling `thisClassIndex` 5. -/
theorem C10_dangling_refs_yield_unknown_witness :
    classParserParse c10Bytes = .ok (mkClassInfo [none] 5 0 [])
  ∧ (mkClassInfo [none] 5 0 []).className = "Unknown" :=
  ⟨(C10_dangling_refs_yield_unknown c10Bytes [none] 10 5 0 [] rfl rfl).1,
   (C10_dangling_refs_yield_unknown c10Bytes [none] 10 5 0 [] rfl rfl).2.1 (by decide)⟩

/-! ## C8: proto resources with javaMultipleFiles -/

theorem foldl_insertLinkStep_links (aid rid : Nat) (names : List String) (st0 : Store) :
    (names.foldl (insertLinkStep aid rid) st0).resource_classes
      = st0.resource_classes ++ names.map (fun n => (rid, n)) := by
  induction names generalizing st0 with
  | nil => simp
  | cons n rest ih =>
    have hstep : (insertLinkStep aid rid st0 n).resource_classes
        = st0.resource_classes ++ [(rid, n)] := by
      simp only [insertLinkStep]
      split <;> rfl
    rw [List.foldl_cons, ih, hstep]
    simp

theorem insertResourceAndLinks_links (st : Store) (aid : Nat)
    (res : String × String × ProtoInfo) :
    (insertResourceAndLinks st aid res).resource_classes
      = st.resource_classes ++
          (computeProtoClasses res.2.2 res.1).map (fun n => (st.nextResourceId, n)) := by
  unfold insertResourceAndLinks
  rw [foldl_insertLinkStep_links]

/-- C8: for a `.proto` resource whose parsed info has
`javaMultipleFiles = true` and top-level definitions `[M, E]`, the class
list derived at ingestion is exactly
`[pkg.Outer, pkg.M, pkg.E]` — where `pkg` is `javaPackage`, else `package`,
else empty (skipped when empty), and `Outer` is `javaOuterClassname`, else
the camel-cased file base name — and the ingested `resource_classes` links
for the resource are exactly that list; definitions nested inside braces
are excluded by the top-level definition scanner (checked on a proto with a
message nested inside `M`). -/
theorem C8_proto_multiple_files_class_set (info : ProtoInfo) (path : String) (M E : String)
    (st : Store) (aid : Nat) (content : String)
    (hm : info.javaMultipleFiles = true)
    (hd : info.definitions = [M, E]) :
    (computeProtoClasses info path =
      [pkgJoin (jsOrElse info.javaPackage (jsOrElse info.package ""))
         (jsOrElse info.javaOuterClassname (protoOuterFromPath path)),
       pkgJoin (jsOrElse info.javaPackage (jsOrElse info.package "")) M,
       pkgJoin (jsOrElse info.javaPackage (jsOrElse info.package "")) E])
  ∧ (insertResourceAndLinks st aid (path, content, info)).resource_classes
      = st.resource_classes ++
          (computeProtoClasses info path).map (fun n => (st.nextResourceId, n))
  ∧ extractTopLevelDefinitions
      "message M \x7b message Nested \x7b \x7d \x7d enum E \x7b \x7d" = ["M", "E"] := by
  refine ⟨?_, insertResourceAndLinks_links st aid (path, content, info), by decide⟩
  simp [computeProtoClasses, hm, hd]

/-- Witness for C8 at the concrete proto of the repository's own
integration test (`java_package = "com.example.multi"`,
`java_outer_classname = "MultiProto"`, definitions
`MultiMessage, MultiEnum`). -/
theorem C8_proto_multiple_files_class_set_witness :
    computeProtoClasses
      { javaPackage := some "com.example.multi", javaOuterClassname := some "MultiProto",
        javaMultipleFiles := true, package := some "com.example",
        definitions := ["MultiMessage", "MultiEnum"] } "multi.proto"
      = ["com.example.multi.MultiProto", "com.example.multi.MultiMessage",
         "com.example.multi.MultiEnum"] := by
  have h := C8_proto_multiple_files_class_set
    { javaPackage := some "com.example.multi", javaOuterClassname := some "MultiProto",
      javaMultipleFiles := true, package := some "com.example",
      definitions := ["MultiMessage", "MultiEnum"] } "multi.proto"
    "MultiMessage" "MultiEnum" emptyStore 1 "" rfl rfl
  rw [h.1]
  decide

/-! ## C5: decompiler fallback and the usedDecompilation flag -/

/-- C5 as stated is false in both directions.  First input: a `docs`
request with no source archive and a main archive lacking the class, where
the decompiler runs and its text is returned — yet `usedDecompilation` is
false (the handler keys the flag on the `source` field, which a docs-type
result never carries).  Second input: a `source` request with no source
archive but a main archive that bundles `Foo.java`, where no decompiler
ever runs (`mainDecompInvoked = false`, refuting the "fallback iff source
archive absent" direction as well) — yet `usedDecompilation` is true. -/
theorem C5_counterexample :
    ((resolveClassDetail noExtract false none (some []) .errored
        (.ran "public class Foo \x7b\x7d" "") "com.x.Foo" .docs).textFromDecomp = true
      ∧ (resolveClassDetail noExtract false none (some []) .errored
          (.ran "public class Foo \x7b\x7d" "") "com.x.Foo" .docs).usedDecompilation = false)
  ∧ ((resolveClassDetail noExtract false none (some fooJavaEntries) .errored .errored
        "com.x.Foo" .source).usedDecompilation = true
      ∧ (resolveClassDetail noExtract false none (some fooJavaEntries) .errored .errored
          "com.x.Foo" .source).textFromDecomp = false
      ∧ (resolveClassDetail noExtract false none (some fooJavaEntries) .errored .errored
          "com.x.Foo" .source).mainDecompInvoked = false) := by decide

/-- C5 (amended): for a `source` or `docs` request (with the decompiler
over a sources archive failing, as it holds no class files): the decompiler
runs over the main archive iff the source-archive step produced nothing
(archive absent, unopenable, or lacking the class file) AND the main
archive itself also lacks (or cannot yield) the `.java`/`.kt` entry; and
`usedDecompilation` is set iff the source-archive step produced nothing,
the request is of type `source`, and the main archive either bundles a
non-empty source file (no decompilation at all!) or is missing the file
while the decompiler produced non-empty output.  In particular decompiled
`docs` results are never flagged. -/
theorem C5_amended_decompile_flag (extract : String → List String × String)
    (hasSource : Bool) (srcZip mainZip : SourceZip) (cfrMain : CfrOutcome)
    (className : String) (t : DetailKind) (ht : t ≠ DetailKind.signatures) :
    ((resolveClassDetail extract hasSource srcZip mainZip .errored cfrMain
        className t).mainDecompInvoked = true
      ↔ ¬ (hasSource = true ∧ (zipFindCandidate srcZip className).isSome = true) ∧
          zipFindCandidate mainZip className = none)
  ∧ ((resolveClassDetail extract hasSource srcZip mainZip .errored cfrMain
        className t).usedDecompilation = true
      ↔ ¬ (hasSource = true ∧ (zipFindCandidate srcZip className).isSome = true) ∧
          t = DetailKind.source ∧
          ((∃ e, zipFindCandidate mainZip className = some e ∧ e.content ≠ "")
            ∨ (zipFindCandidate mainZip className = none ∧
                ∃ o s, cfrMain = CfrOutcome.ran o s ∧ o ≠ ""))) := by
  cases t with
  | signatures => exact absurd rfl ht
  | docs =>
    cases hasSource with
    | true =>
      cases hsz : zipFindCandidate srcZip className with
      | some e =>
        simp [resolveClassDetail, getClassDetail, hsz]
      | none =>
        cases hmz : zipFindCandidate mainZip className with
        | some e =>
          simp [resolveClassDetail, getClassDetail, decompileClass, hsz, hmz,
            sourceParserParse, jsTruthyStr]
        | none =>
          cases cfrMain with
          | errored =>
            simp [resolveClassDetail, getClassDetail, decompileClass, hsz, hmz]
          | ran o s =>
            by_cases ho : o = "" <;> by_cases hs : s = "" <;>
              simp [resolveClassDetail, getClassDetail, decompileClass, hsz, hmz,
                sourceParserParse, jsTruthyStr, ho, hs]
    | false =>
      cases hmz : zipFindCandidate mainZip className with
      | some e =>
        simp [resolveClassDetail, getClassDetail, decompileClass, hmz,
          sourceParserParse, jsTruthyStr]
      | none =>
        cases cfrMain with
        | errored =>
          simp [resolveClassDetail, getClassDetail, decompileClass, hmz]
        | ran o s =>
          by_cases ho : o = "" <;> by_cases hs : s = "" <;>
            simp [resolveClassDetail, getClassDetail, decompileClass, hmz,
              sourceParserParse, jsTruthyStr, ho, hs]
  | source =>
    cases hasSource with
    | true =>
      cases hsz : zipFindCandidate srcZip className with
      | some e =>
        simp [resolveClassDetail, getClassDetail, hsz]
      | none =>
        cases hmz : zipFindCandidate mainZip className with
        | some e =>
          simp [resolveClassDetail, getClassDetail, decompileClass, hsz, hmz,
            sourceParserParse, jsTruthyStr]
        | none =>
          cases cfrMain with
          | errored =>
            simp [resolveClassDetail, getClassDetail, decompileClass, hsz, hmz]
          | ran o s =>
            by_cases ho : o = "" <;> by_cases hs : s = "" <;>
              simp [resolveClassDetail, getClassDetail, decompileClass, hsz, hmz,
                sourceParserParse, jsTruthyStr, ho, hs]
    | false =>
      cases hmz : zipFindCandidate mainZip className with
      | some e =>
        simp [resolveClassDetail, getClassDetail, decompileClass, hmz,
          sourceParserParse, jsTruthyStr]
      | none =>
        cases cfrMain with
        | errored =>
          simp [resolveClassDetail, getClassDetail, decompileClass, hmz]
        | ran o s =>
          by_cases ho : o = "" <;> by_cases hs : s = "" <;>
            simp [resolveClassDetail, getClassDetail, decompileClass, hmz,
              sourceParserParse, jsTruthyStr, ho, hs]

/-- Witness for C5 (amended): at a concrete `source` request with no
source archive and an empty main archive, the characterization yields that
the decompiler was invoked over the main archive. -/
theorem C5_amended_decompile_flag_witness :
    (resolveClassDetail noExtract false none (some []) .errored
      (.ran "text" "") "com.x.Foo" .source).mainDecompInvoked = true :=
  (C5_amended_decompile_flag noExtract false none (some []) (.ran "text" "")
    "com.x.Foo" .source (by decide)).1.mpr (by decide)

/-! ## C6: resolveBestArtifact preferences -/

theorem tripleLt_iff (u v : Nat × Nat × Nat) :
    tripleLt u v = true ↔
      (u.1 < v.1 ∨ (u.1 = v.1 ∧ (u.2.1 < v.2.1 ∨ (u.2.1 = v.2.1 ∧ u.2.2 < v.2.2)))) := by
  obtain ⟨a1, a2, a3⟩ := u
  obtain ⟨b1, b2, b3⟩ := v
  simp [tripleLt, Bool.or_eq_true, Bool.and_eq_true, decide_eq_true_eq]

theorem tripleLt_asymm {u v : Nat × Nat × Nat} (h : tripleLt u v = true) :
    tripleLt v u = false := by
  rw [tripleLt_iff] at h
  rw [Bool.eq_false_iff]
  intro h2
  rw [tripleLt_iff] at h2
  omega

theorem tripleLt_false_trans {u v w : Nat × Nat × Nat}
    (h1 : tripleLt u v = false) (h2 : tripleLt v w = false) : tripleLt u w = false := by
  have n1 : ¬ (u.1 < v.1 ∨ (u.1 = v.1 ∧ (u.2.1 < v.2.1 ∨ (u.2.1 = v.2.1 ∧ u.2.2 < v.2.2)))) :=
    fun hc => by rw [(tripleLt_iff u v).mpr hc] at h1; cases h1
  have n2 : ¬ (v.1 < w.1 ∨ (v.1 = w.1 ∧ (v.2.1 < w.2.1 ∨ (v.2.1 = w.2.1 ∧ v.2.2 < w.2.2)))) :=
    fun hc => by rw [(tripleLt_iff v w).mpr hc] at h2; cases h2
  rw [Bool.eq_false_iff]
  intro h3
  rw [tripleLt_iff] at h3
  omega

theorem rcompareTriple_le_zero (va vb : Nat × Nat × Nat) :
    rcompareTriple va vb ≤ 0 ↔ tripleLt va vb = false := by
  unfold rcompareTriple
  by_cases h1 : tripleLt vb va = true
  · rw [if_pos h1]
    simp [tripleLt_asymm h1]
  · rw [if_neg h1]
    by_cases h2 : tripleLt va vb = true
    · rw [if_pos h2]
      simp [h2]
    · rw [if_neg h2]
      simp [Bool.eq_false_iff, h2]

theorem head_insertionSort_min {α : Type} (r : α → α → Prop) [DecidableRel r]
    (P : α → Prop)
    (htot : ∀ a b, P a → P b → ¬ r a b → r b a)
    (htrans : ∀ a b c, P a → P b → P c → r a b → r b c → r a c) :
    ∀ (l : List α), (∀ a ∈ l, P a) →
      ∀ h, (l.insertionSort r).head? = some h → ∀ a ∈ l, r h a := by
  have hrefl : ∀ a, P a → r a a := by
    intro a ha
    by_cases h : r a a
    · exact h
    · exact htot a a ha ha h
  intro l
  induction l with
  | nil => intro _ h hh; simp [List.insertionSort] at hh
  | cons x xs ih =>
    intro hP h hh a ha
    have hsort : List.insertionSort r (x :: xs)
        = List.orderedInsert r x (List.insertionSort r xs) := rfl
    rw [hsort] at hh
    have hPx : P x := hP x (List.mem_cons_self x xs)
    cases hs : List.insertionSort r xs with
    | nil =>
      have hxs : xs = [] := by
        have hperm := List.perm_insertionSort r xs
        rw [hs] at hperm
        exact hperm.symm.eq_nil
      rw [hs] at hh
      have hhx : h = x := by
        simp [List.orderedInsert] at hh
        exact hh.symm
      rw [hhx]
      rcases List.mem_cons.mp ha with hax | hax
      · rw [hax]; exact hrefl x hPx
      · rw [hxs] at hax; cases hax
    | cons y ys =>
      rw [hs] at hh
      have hymem : y ∈ xs := by
        have hperm := List.perm_insertionSort r xs
        rw [hs] at hperm
        exact hperm.mem_iff.mp (List.mem_cons_self y ys)
      have hPy : P y := hP y (List.mem_cons_of_mem x hymem)
      have hy : ∀ b ∈ xs, r y b := by
        intro b hb
        exact ih (fun c hc => hP c (List.mem_cons_of_mem x hc)) y (by rw [hs]; rfl) b hb
      have hins : List.orderedInsert r x (y :: ys)
          = if r x y then x :: y :: ys else y :: List.orderedInsert r x ys := rfl
      by_cases hr : r x y
      · rw [hins, if_pos hr] at hh
        have hhx : h = x := by simpa using hh.symm
        rw [hhx]
        rcases List.mem_cons.mp ha with hax | hax
        · rw [hax]; exact hrefl x hPx
        · exact htrans x y a hPx hPy (hP a ha) hr (hy a hax)
      · rw [hins, if_neg hr] at hh
        have hhy : h = y := by simpa using hh.symm
        rw [hhy]
        rcases List.mem_cons.mp ha with hax | hax
        · rw [hax]; exact htot x y hPx hPy hr
        · exact hy a hax

theorem head_insertionSort_hasSource (cmp : Artifact → Artifact → Int) :
    ∀ (l : List Artifact), (∃ a ∈ l, a.hasSource = true) →
      ∀ h, (l.insertionSort (resolverLe cmp)).head? = some h → h.hasSource = true := by
  intro l
  induction l with
  | nil => rintro ⟨a, ha, _⟩; cases ha
  | cons x xs ih =>
    rintro ⟨a, ha, hsrc⟩ h hh
    have hsort : List.insertionSort (resolverLe cmp) (x :: xs)
        = List.orderedInsert (resolverLe cmp) x (List.insertionSort (resolverLe cmp) xs) :=
      rfl
    rw [hsort] at hh
    cases hs : List.insertionSort (resolverLe cmp) xs with
    | nil =>
      rw [hs] at hh
      have hhx : h = x := by
        simp [List.orderedInsert] at hh
        exact hh.symm
      have hxs : xs = [] := by
        have hperm := List.perm_insertionSort (resolverLe cmp) xs
        rw [hs] at hperm
        exact hperm.symm.eq_nil
      rw [hhx]
      rcases List.mem_cons.mp ha with hax | hax
      · rw [← hax]; exact hsrc
      · rw [hxs] at hax; cases hax
    | cons y ys =>
      rw [hs] at hh
      have hins : List.orderedInsert (resolverLe cmp) x (y :: ys)
          = if resolverLe cmp x y then x :: y :: ys
            else y :: List.orderedInsert (resolverLe cmp) x ys := rfl
      by_cases hx : x.hasSource = true
      · by_cases hr : resolverLe cmp x y
        · rw [hins, if_pos hr] at hh
          have hhx : h = x := by simpa using hh.symm
          rw [hhx]; exact hx
        · rw [hins, if_neg hr] at hh
          have hhy : h = y := by simpa using hh.symm
          rw [hhy]
          by_contra hy2
          have hyf : y.hasSource = false := Bool.eq_false_iff.mpr hy2
          have : resolverLe cmp x y := by
            unfold resolverLe resolverCmp
            rw [hx, hyf]
            norm_num
          exact hr this
      · have hxf : x.hasSource = false := Bool.eq_false_iff.mpr hx
        have hmem : ∃ a ∈ xs, a.hasSource = true := by
          rcases List.mem_cons.mp ha with hax | hax
          · exfalso
            rw [hax, hxf] at hsrc
            exact Bool.false_ne_true hsrc
          · exact ⟨a, hax, hsrc⟩
        have hy : y.hasSource = true := ih hmem y (by rw [hs]; rfl)
        have hr : ¬ resolverLe cmp x y := by
          unfold resolverLe resolverCmp
          rw [hxf, hy]
          norm_num
        rw [hins, if_neg hr] at hh
        have hhy : h = y := by simpa using hh.symm
        rw [hhy]; exact hy

theorem resolverLe_semver_iff (a b : Artifact) (hs : a.hasSource = b.hasSource)
    (hva : (parseNumTriple a.version).isSome = true)
    (hvb : (parseNumTriple b.version).isSome = true) :
    resolverLe compareSemver a b ↔ tripleLt (tripleOf a) (tripleOf b) = false := by
  obtain ⟨va, hva'⟩ := Option.isSome_iff_exists.mp hva
  obtain ⟨vb, hvb'⟩ := Option.isSome_iff_exists.mp hvb
  unfold resolverLe resolverCmp compareSemver
  rw [hs, bne_self_eq_false]
  simp only [Bool.false_eq_true, if_false, hva', hvb']
  rw [show tripleOf a = va by simp [tripleOf, hva'],
      show tripleOf b = vb by simp [tripleOf, hvb']]
  exact rcompareTriple_le_zero va vb

/-- C6: `resolveBestArtifact` returns an artifact on every non-empty list;
whenever some artifact in the list has sources, the returned artifact has
sources (regardless of versions and of the strategy comparator); under the
default semver strategy, when all artifacts agree on `hasSource` and every
version coerces, the returned artifact's version triple is maximal; and on
the concrete pair 1.0.0-with-sources / 2.0.0-without, the 1.0.0 artifact is
returned. -/
theorem C6_resolveBestArtifact :
    (∀ (cmp : Artifact → Artifact → Int) (l : List Artifact),
      l ≠ [] → (resolveBestArtifact cmp l).isSome = true)
  ∧ (∀ (cmp : Artifact → Artifact → Int) (l : List Artifact) (r : Artifact),
      resolveBestArtifact cmp l = some r → (∃ a ∈ l, a.hasSource = true) →
        r.hasSource = true)
  ∧ (∀ (l : List Artifact) (hs : Bool) (r : Artifact),
      (∀ a ∈ l, a.hasSource = hs) →
      (∀ a ∈ l, (parseNumTriple a.version).isSome = true) →
      resolveBestArtifactSemver l = some r →
      ∀ a ∈ l, tripleLt (tripleOf r) (tripleOf a) = false)
  ∧ resolveBestArtifactSemver
      [⟨1, "g", "a", "1.0.0", "p", true⟩, ⟨2, "g", "a", "2.0.0", "q", false⟩]
      = some ⟨1, "g", "a", "1.0.0", "p", true⟩ := by
  refine ⟨?_, ?_, ?_, by decide⟩
  · intro cmp l hl
    unfold resolveBestArtifact
    cases hs : List.insertionSort (resolverLe cmp) l with
    | nil =>
      have hperm := List.perm_insertionSort (resolverLe cmp) l
      rw [hs] at hperm
      exact absurd hperm.symm.eq_nil hl
    | cons y ys => rfl
  · intro cmp l r hr hex
    exact head_insertionSort_hasSource cmp l hex r hr
  · intro l hs r hsrc hver hr a ha
    have hrmem : r ∈ l := by
      have hperm := List.perm_insertionSort (resolverLe compareSemver) l
      have : r ∈ List.insertionSort (resolverLe compareSemver) l :=
        List.mem_of_mem_head? hr
      exact hperm.mem_iff.mp this
    have hmin := head_insertionSort_min (resolverLe compareSemver)
      (fun a => a.hasSource = hs ∧ (parseNumTriple a.version).isSome = true)
      (fun a b hpa hpb hnab => by
        rw [resolverLe_semver_iff b a (hpb.1.trans hpa.1.symm) hpb.2 hpa.2]
        rw [resolverLe_semver_iff a b (hpa.1.trans hpb.1.symm) hpa.2 hpb.2] at hnab
        have := Bool.eq_false_or_eq_true (tripleLt (tripleOf a) (tripleOf b))
        rcases this with h | h
        · exact tripleLt_asymm h
        · exact absurd h hnab)
      (fun a b c hpa hpb hpc hab hbc => by
        rw [resolverLe_semver_iff a c (hpa.1.trans hpc.1.symm) hpa.2 hpc.2]
        rw [resolverLe_semver_iff a b (hpa.1.trans hpb.1.symm) hpa.2 hpb.2] at hab
        rw [resolverLe_semver_iff b c (hpb.1.trans hpc.1.symm) hpb.2 hpc.2] at hbc
        exact tripleLt_false_trans hab hbc)
      l (fun a ha => ⟨hsrc a ha, hver a ha⟩) r hr a ha
    rw [resolverLe_semver_iff r a ((hsrc r hrmem).trans (hsrc a ha).symm)
      (hver r hrmem) (hver a ha)] at hmin
    exact hmin

/-- Witness for C6 at concrete lists discharging each hypothesis. -/
theorem C6_resolveBestArtifact_witness :
    (resolveBestArtifact compareSemver [⟨1, "g", "a", "1.0.0", "p", true⟩]).isSome = true
  ∧ (∀ r, resolveBestArtifact compareSemver
      [⟨1, "g", "a", "1.0.0", "p", true⟩, ⟨2, "g", "a", "2.0.0", "q", false⟩] = some r →
        r.hasSource = true) ∧
    (∀ a ∈ [Artifact.mk 1 "g" "a" "1.0.0" "p" false, Artifact.mk 2 "g" "a" "2.0.0" "q" false],
      tripleLt (tripleOf (Artifact.mk 2 "g" "a" "2.0.0" "q" false)) (tripleOf a) = false) := by
  refine ⟨C6_resolveBestArtifact.1 compareSemver _ (by decide),
    fun r hr => C6_resolveBestArtifact.2.1 compareSemver _ r hr
      ⟨⟨1, "g", "a", "1.0.0", "p", true⟩, by decide, rfl⟩, ?_⟩
  exact C6_resolveBestArtifact.2.2.1
    [Artifact.mk 1 "g" "a" "1.0.0" "p" false, Artifact.mk 2 "g" "a" "2.0.0" "q" false]
    false (Artifact.mk 2 "g" "a" "2.0.0" "q" false)
    (by decide) (by decide) (by decide)

/-! ## C7: includedPackages normalization -/

theorem charListLt_cons_iff (x y : Char) (xs ys : List Char) :
    charListLt (x :: xs) (y :: ys) = true ↔
      (x < y ∨ (x = y ∧ charListLt xs ys = true)) := by
  simp [charListLt, Bool.or_eq_true, Bool.and_eq_true, decide_eq_true_eq]

theorem charListLt_asymm : ∀ {a b : List Char},
    charListLt a b = true → charListLt b a = false
  | [], [], h => by simp [charListLt] at h
  | [], _ :: _, _ => by simp [charListLt]
  | _ :: _, [], h => by simp [charListLt] at h
  | c :: cs, d :: ds, h => by
    rw [charListLt_cons_iff] at h
    rw [Bool.eq_false_iff]
    intro h2
    rw [charListLt_cons_iff] at h2
    rcases h with h | ⟨hcd, hlt⟩
    · rcases h2 with h2 | ⟨hdc, _⟩
      · exact absurd h2 (lt_asymm h)
      · rw [hdc] at h; exact lt_irrefl c h
    · rcases h2 with h2 | ⟨_, hlt2⟩
      · rw [hcd] at h2; exact lt_irrefl d h2
      · exact (Bool.eq_false_iff.mp (charListLt_asymm hlt)) hlt2

theorem charListLt_trans : ∀ {a b c : List Char},
    charListLt a b = true → charListLt b c = true → charListLt a c = true
  | [], [], _, h1, _ => by simp [charListLt] at h1
  | [], _ :: _, [], _, h2 => by simp [charListLt] at h2
  | [], _ :: _, _ :: _, _, _ => by simp [charListLt]
  | _ :: _, [], _, h1, _ => by simp [charListLt] at h1
  | _ :: _, _ :: _, [], _, h2 => by simp [charListLt] at h2
  | x :: xs, y :: ys, z :: zs, h1, h2 => by
    rw [charListLt_cons_iff] at h1 h2 ⊢
    rcases h1 with h1 | ⟨hxy, l1⟩
    · rcases h2 with h2 | ⟨hyz, l2⟩
      · exact Or.inl (lt_trans h1 h2)
      · rw [hyz] at h1; exact Or.inl h1
    · rcases h2 with h2 | ⟨hyz, l2⟩
      · rw [← hxy] at h2; exact Or.inl h2
      · exact Or.inr ⟨hxy.trans hyz, charListLt_trans l1 l2⟩

theorem charListLt_connex : ∀ {a b : List Char},
    charListLt a b = false → charListLt b a = false → a = b
  | [], [], _, _ => rfl
  | [], _ :: _, h1, _ => by simp [charListLt] at h1
  | _ :: _, [], _, h2 => by simp [charListLt] at h2
  | x :: xs, y :: ys, h1, h2 => by
    have n1 : ¬ (x < y ∨ (x = y ∧ charListLt xs ys = true)) :=
      fun hc => (Bool.eq_false_iff.mp h1) ((charListLt_cons_iff x y xs ys).mpr hc)
    have n2 : ¬ (y < x ∨ (y = x ∧ charListLt ys xs = true)) :=
      fun hc => (Bool.eq_false_iff.mp h2) ((charListLt_cons_iff y x ys xs).mpr hc)
    have hxy : x = y :=
      le_antisymm (not_lt.mp (fun h => n2 (Or.inl h))) (not_lt.mp (fun h => n1 (Or.inl h)))
    have hsub : xs = ys := by
      apply charListLt_connex
      · rw [Bool.eq_false_iff]; intro hl; exact n1 (Or.inr ⟨hxy, hl⟩)
      · rw [Bool.eq_false_iff]; intro hl; exact n2 (Or.inr ⟨hxy.symm, hl⟩)
    rw [hxy, hsub]

instance : IsTotal String strLe :=
  ⟨fun a b => by
    unfold strLe
    rcases Bool.eq_false_or_eq_true (charListLt b.toList a.toList) with h | h
    · exact Or.inr (charListLt_asymm h)
    · exact Or.inl h⟩

instance : IsTrans String strLe :=
  ⟨fun a b c hab hbc => by
    unfold strLe at *
    rw [Bool.eq_false_iff]
    intro hca
    rcases Bool.eq_false_or_eq_true (charListLt b.toList c.toList) with h | h
    · exact (Bool.eq_false_iff.mp hab) (charListLt_trans h hca)
    · have hbceq : b.toList = c.toList := charListLt_connex h hbc
      rw [← hbceq] at hca
      exact (Bool.eq_false_iff.mp hab) hca⟩

theorem absorbAux_sublist (last : String) (l : List String) :
    (absorbAux last l).Sublist l := by
  induction l generalizing last with
  | nil => simp [absorbAux]
  | cons p rest ih =>
    unfold absorbAux
    split
    · exact List.Sublist.cons p (ih last)
    · exact List.Sublist.cons₂ p (ih p)

theorem absorbSubPrefixes_sublist (l : List String) :
    (absorbSubPrefixes l).Sublist l := by
  cases l with
  | nil => simp [absorbSubPrefixes]
  | cons p rest => exact List.Sublist.cons₂ p (absorbAux_sublist p rest)

theorem chain_absorbAux (last : String) (l : List String) :
    List.Chain (fun a b => ¬ (b = a ∨ strStartsWith b (a ++ ".") = true))
      last (absorbAux last l) := by
  induction l generalizing last with
  | nil => exact List.Chain.nil
  | cons p rest ih =>
    unfold absorbAux
    split
    · exact ih last
    · rename_i hcond
      refine List.Chain.cons ?_ (ih p)
      intro hor
      apply hcond
      rcases hor with h | h
      · simp [h]
      · simp [h]

theorem chain'_absorbSubPrefixes (l : List String) :
    List.Chain' (fun a b => ¬ (b = a ∨ strStartsWith b (a ++ ".") = true))
      (absorbSubPrefixes l) := by
  cases l with
  | nil => simp [absorbSubPrefixes]
  | cons p rest => exact chain_absorbAux p rest

/-- C7 as stated is false in its general clause "every later sub-prefix of
an earlier prefix is removed": the absorption loop only compares against
the most recently kept entry, so with `["a", "a!b", "a.c"]` (where `!`
sorts between `a` and `a.`) the output keeps `a.c` even though it is a
sub-prefix of the earlier output entry `a`. -/
theorem C7_counterexample :
    normalizeScanPatterns ["a", "a!b", "a.c"] = ["a", "a!b", "a.c"]
  ∧ strStartsWith "a.c" ("a" ++ ".") = true
  ∧ ("a" : String) ≠ "a.c" := by decide

/-- C7 (amended): the two concrete normalizations of the claim hold
(`["com.test.*", "com.test", "com.test.demo", "com.other"]` gives
`["com.other", "com.test"]`; `["*"]` and `[""]` give `[]`); any entry that
trims to a pure wildcard empties the whole result; every output entry is a
trimmed, wildcard-stripped, non-empty input entry; the output is sorted;
and each output entry is neither equal to nor a sub-prefix of the
*immediately preceding* output entry (sub-prefixes of earlier,
non-adjacent entries can survive, as the counterexample shows). -/
theorem C7_amended_normalization :
    (normalizeScanPatterns ["com.test.*", "com.test", "com.test.demo", "com.other"]
        = ["com.other", "com.test"])
  ∧ (normalizeScanPatterns ["*"] = [] ∧ normalizeScanPatterns [""] = [])
  ∧ (∀ ps : List String, (∃ p ∈ ps, strTrim p ≠ "" ∧ stripWildcard (strTrim p) = "") →
      normalizeScanPatterns ps = [])
  ∧ (∀ (ps : List String) (q : String), q ∈ normalizeScanPatterns ps →
      q ≠ "" ∧ ∃ p ∈ ps, q = stripWildcard (strTrim p))
  ∧ (∀ ps : List String, List.Sorted strLe (normalizeScanPatterns ps))
  ∧ (∀ ps : List String,
      List.Chain' (fun a b => ¬ (b = a ∨ strStartsWith b (a ++ ".") = true))
        (normalizeScanPatterns ps)) := by
  refine ⟨by decide, ⟨by decide, by decide⟩, ?_, ?_, ?_, ?_⟩
  · intro ps ⟨p, hp, ht, hsw⟩
    have hne : ps ≠ [] := by rintro rfl; cases hp
    have hmem : ("" : String) ∈ cleanPatterns ps := by
      rw [← hsw]
      exact List.mem_map.mpr ⟨strTrim p,
        List.mem_filter.mpr ⟨List.mem_map.mpr ⟨p, hp, rfl⟩, by simpa using ht⟩, rfl⟩
    have hcont : (cleanPatterns ps).contains "" = true := by
      simpa [List.contains, List.elem_iff] using hmem
    unfold normalizeScanPatterns
    rw [if_neg hne, if_pos hcont]
  · intro ps q hq
    unfold normalizeScanPatterns at hq
    by_cases h0 : ps = []
    · rw [if_pos h0] at hq; cases hq
    · rw [if_neg h0] at hq
      by_cases h1 : (cleanPatterns ps).contains "" = true
      · rw [if_pos h1] at hq; cases hq
      · rw [if_neg h1] at hq
        by_cases h2 : cleanPatterns ps = []
        · rw [if_pos h2] at hq; cases hq
        · rw [if_neg h2] at hq
          have hmem : q ∈ cleanPatterns ps :=
            (List.perm_insertionSort _ (cleanPatterns ps)).mem_iff.mp
              ((absorbSubPrefixes_sublist _).subset hq)
          constructor
          · intro hq0
            rw [hq0] at hmem
            exact h1 (by simpa [List.contains, List.elem_iff] using hmem)
          · obtain ⟨t, htmem, htq⟩ := List.mem_map.mp hmem
            obtain ⟨htin, _⟩ := List.mem_filter.mp htmem
            obtain ⟨p, hpin, hpt⟩ := List.mem_map.mp htin
            exact ⟨p, hpin, by rw [← htq, ← hpt]⟩
  · intro ps
    unfold normalizeScanPatterns
    by_cases h0 : ps = []
    · rw [if_pos h0]; exact List.sorted_nil
    · rw [if_neg h0]
      by_cases h1 : (cleanPatterns ps).contains "" = true
      · rw [if_pos h1]; exact List.sorted_nil
      · rw [if_neg h1]
        by_cases h2 : cleanPatterns ps = []
        · rw [if_pos h2]; exact List.sorted_nil
        · rw [if_neg h2]
          exact (List.sorted_insertionSort strLe (cleanPatterns ps)).sublist
            (absorbSubPrefixes_sublist _)
  · intro ps
    unfold normalizeScanPatterns
    by_cases h0 : ps = []
    · rw [if_pos h0]; exact List.chain'_nil
    · rw [if_neg h0]
      by_cases h1 : (cleanPatterns ps).contains "" = true
      · rw [if_pos h1]; exact List.chain'_nil
      · rw [if_neg h1]
        by_cases h2 : cleanPatterns ps = []
        · rw [if_pos h2]; exact List.chain'_nil
        · rw [if_neg h2]
          exact chain'_absorbSubPrefixes _

/-- Witness for C7 (amended) at concrete pattern lists. -/
theorem C7_amended_normalization_witness :
    normalizeScanPatterns ["  *  ", "com.a"] = []
  ∧ (("com.other" : String) ≠ "" ∧ ∃ p ∈ ["com.test.*", "com.test", "com.test.demo",
      "com.other"], "com.other" = stripWildcard (strTrim p)) :=
  ⟨C7_amended_normalization.2.2.1 ["  *  ", "com.a"] ⟨"  *  ", by decide, by decide, by decide⟩,
   C7_amended_normalization.2.2.2.1 ["com.test.*", "com.test", "com.test.demo", "com.other"]
     "com.other" (by decide)⟩

/-! ## C4: exact-name class search -/

theorem isPrefixOf_self : ∀ (l : List Char), l.isPrefixOf l = true
  | [] => rfl
  | c :: cs => by simp [List.isPrefixOf, isPrefixOf_self cs]

theorem strContainsSub_self (s : String) : strContainsSub s s = true := by
  unfold strContainsSub
  rw [List.any_eq_true]
  refine ⟨0, List.mem_range.mpr (Nat.succ_pos _), ?_⟩
  rw [List.drop_zero]
  exact isPrefixOf_self s.toList

theorem insertGroup_key_self (acc : List (String × List Artifact)) (name : String)
    (a : Artifact) : ∃ as, (name, as) ∈ insertGroup acc name a := by
  induction acc with
  | nil => exact ⟨[a], List.mem_singleton.mpr rfl⟩
  | cons g rest ih =>
    obtain ⟨n, arts⟩ := g
    unfold insertGroup
    split
    · rename_i hn
      exact ⟨arts ++ [a], by rw [← hn]; exact List.mem_cons_self _ _⟩
    · obtain ⟨as, has⟩ := ih
      exact ⟨as, List.mem_cons_of_mem _ has⟩

theorem insertGroup_key_mono (acc : List (String × List Artifact)) (name : String)
    (a : Artifact) (k : String) (as : List Artifact) (h : (k, as) ∈ acc) :
    ∃ as', (k, as') ∈ insertGroup acc name a := by
  induction acc with
  | nil => cases h
  | cons g rest ih =>
    obtain ⟨n, arts⟩ := g
    unfold insertGroup
    split
    · rcases List.mem_cons.mp h with hh | hh
      · refine ⟨arts ++ [a], ?_⟩
        rw [show k = n from congrArg Prod.fst hh]
        exact List.mem_cons_self _ _
      · exact ⟨as, List.mem_cons_of_mem _ hh⟩
    · rcases List.mem_cons.mp h with hh | hh
      · exact ⟨as, by rw [hh]; exact List.mem_cons_self _ _⟩
      · obtain ⟨as', has'⟩ := ih hh
        exact ⟨as', List.mem_cons_of_mem _ has'⟩

theorem foldl_insertGroup_mono (rows : List (ClassRow × ArtifactRow))
    (acc : List (String × List Artifact)) (k : String) (as : List Artifact)
    (h : (k, as) ∈ acc) :
    ∃ as', (k, as') ∈ rows.foldl
      (fun acc r => insertGroup acc r.1.className (toArtifact r.2)) acc := by
  induction rows generalizing acc as with
  | nil => exact ⟨as, h⟩
  | cons r rest ih =>
    obtain ⟨as', has'⟩ := insertGroup_key_mono acc r.1.className (toArtifact r.2) k as h
    exact ih _ as' has'

theorem foldl_insertGroup_key : ∀ (rows : List (ClassRow × ArtifactRow))
    (acc : List (String × List Artifact)) (r : ClassRow × ArtifactRow), r ∈ rows →
    ∃ as, (r.1.className, as) ∈ rows.foldl
      (fun acc r => insertGroup acc r.1.className (toArtifact r.2)) acc
  | [], _, _, hr => absurd hr (List.not_mem_nil _)
  | r0 :: rest, acc, r, hr => by
    rw [List.foldl_cons]
    rcases List.mem_cons.mp hr with hh | hh
    · obtain ⟨as, has⟩ := insertGroup_key_self acc r0.1.className (toArtifact r0.2)
      rw [hh]
      exact foldl_insertGroup_mono rest _ _ as has
    · exact foldl_insertGroup_key rest _ r hh

theorem groupRows_key (rows : List (ClassRow × ArtifactRow))
    (r : ClassRow × ArtifactRow) (hr : r ∈ rows) :
    ∃ as, (r.1.className, as) ∈ groupRows rows :=
  foldl_insertGroup_key rows [] r hr

theorem ftsOrChain_nil (F : Nat) (a : FtsExpr) :
    ftsOrChain F a [] = some (a, []) := by
  simp [ftsOrChain]

theorem ftsParseOr_phrase_nil (p : String) (F : Nat) :
    ftsParseOr F [FtsTok.phrase p] = ftsOrChain F (FtsExpr.atom p) [] := by
  simp [ftsParseOr, ftsParseAnd, ftsParseNot, ftsParseAdj, ftsParseUnit,
    ftsAdjChain, ftsNotChain, ftsAndChain]

theorem ftsParseOr_phrase_opOr (p : String) (l : List FtsTok) (F : Nat) :
    ftsParseOr F (FtsTok.phrase p :: FtsTok.opOr :: l)
      = ftsOrChain F (FtsExpr.atom p) (FtsTok.opOr :: l) := by
  simp [ftsParseOr, ftsParseAnd, ftsParseNot, ftsParseAdj, ftsParseUnit,
    ftsAdjChain, ftsNotChain, ftsAndChain]

theorem ftsOrChain_true (c : ClassRow) :
    ∀ (fuel : Nat) (a e : FtsExpr) (toks rest : List FtsTok),
      ftsCoerce (evalFts c a) = true →
      ftsOrChain fuel a toks = some (e, rest) →
      ftsCoerce (evalFts c e) = true := by
  intro fuel
  induction fuel with
  | zero =>
    intro a e toks rest h0 hp
    cases toks with
    | nil => injection hp with h; injection h with h1 h2; exact h1 ▸ h0
    | cons t ts =>
      cases t with
      | opOr => exact Option.noConfusion hp
      | phrase p => injection hp with h; injection h with h1 h2; exact h1 ▸ h0
      | term w => injection hp with h; injection h with h1 h2; exact h1 ▸ h0
      | opAnd => injection hp with h; injection h with h1 h2; exact h1 ▸ h0
      | opNot => injection hp with h; injection h with h1 h2; exact h1 ▸ h0
  | succ f ih =>
    intro a e toks rest h0 hp
    cases toks with
    | nil => injection hp with h; injection h with h1 h2; exact h1 ▸ h0
    | cons t ts =>
      cases t with
      | opOr =>
        have hp2 : (match ftsParseAnd f ts with
            | none => none
            | some (b, rest2) => ftsOrChain f (FtsExpr.orE a b) rest2)
              = some (e, rest) := hp
        cases hq : ftsParseAnd f ts with
        | none => rw [hq] at hp2; exact Option.noConfusion hp2
        | some pr =>
          obtain ⟨b, rest2⟩ := pr
          rw [hq] at hp2
          have h0' : ftsCoerce (evalFts c (FtsExpr.orE a b)) = true := by
            have hev : evalFts c (FtsExpr.orE a b)
                = some (ftsCoerce (evalFts c a) || ftsCoerce (evalFts c b)) := by
              simp [evalFts]
            rw [ftsCoerce, hev, Option.getD_some, h0, Bool.true_or]
          exact ih (FtsExpr.orE a b) e rest2 rest h0' hp2
      | phrase p => injection hp with h; injection h with h1 h2; exact h1 ▸ h0
      | term w => injection hp with h; injection h with h1 h2; exact h1 ▸ h0
      | opAnd => injection hp with h; injection h with h1 h2; exact h1 ▸ h0
      | opNot => injection hp with h; injection h with h1 h2; exact h1 ▸ h0

theorem ftsParseQuery_phrase (p : String) (c : ClassRow) (e : FtsExpr)
    (hp : ftsParseQuery p = some e)
    (hatom : ftsCoerce (ftsAtomEval c p) = true) :
    ftsCoerce (evalFts c e) = true := by
  have h0 : ftsCoerce (evalFts c (FtsExpr.atom p)) = true := hatom
  unfold ftsParseQuery at hp
  by_cases hws : ftsWords p = []
  · rw [show ftsQueryTokens p = [FtsTok.phrase p] by
        simp [ftsQueryTokens, hws],
      ftsParseOr_phrase_nil, ftsOrChain_nil] at hp
    have hp2 : some (FtsExpr.atom p) = some e := hp
    injection hp2 with h
    exact h ▸ h0
  · rw [show ftsQueryTokens p
          = FtsTok.phrase p :: FtsTok.opOr :: (ftsWords p).map ftsClassify by
        simp [ftsQueryTokens, hws],
      ftsParseOr_phrase_opOr] at hp
    cases hq : ftsOrChain
        ((FtsTok.phrase p :: FtsTok.opOr :: (ftsWords p).map ftsClassify).length + 1)
        (FtsExpr.atom p) (FtsTok.opOr :: (ftsWords p).map ftsClassify) with
    | none => rw [hq] at hp; exact Option.noConfusion hp
    | some pr =>
      obtain ⟨f, r⟩ := pr
      rw [hq] at hp
      cases r with
      | nil =>
        have he : f = e := by
          have hp2 : some f = some e := hp
          injection hp2
        exact ftsOrChain_true c _ (FtsExpr.atom p) e _ [] h0 (he ▸ hq)
      | cons t ts => exact Option.noConfusion hp

/-- C4 as stated is false, in two independent ways.  (i) The two-character
class name `Ab` is present in the class FTS table, holds no wildcard and no
`regex:` prefix, yet `searchClass "Ab"` returns no entry at all: a phrase
or word shorter than three characters yields no trigram token, so the query
matches nothing.  (ii) The indexed name `com.test.OR` is spliced into the
MATCH string where its last word is the FTS5 `OR` operator with no right
operand — a syntax error the method catches, returning `[]` instead of the
exact row.  A mid-name `OR`, as in the pattern `aaa.OR.test`, instead
broadens the query disjunctively: the result lists rows (both rows of the
same store) that contain the whole pattern in no column. -/
theorem C4_counterexample :
    ((⟨1, "Ab", "Ab"⟩ : ClassRow) ∈ c4ShortStore.classes_fts
  ∧ strContainsChar "Ab" '*' = false
  ∧ strContainsChar "Ab" '?' = false
  ∧ strStartsWith "Ab" "regex:" = false
  ∧ searchClass (fun _ _ => false) (fun _ => 0) "Ab" c4ShortStore = [])
  ∧ ((⟨1, "com.test.OR", "OR"⟩ : ClassRow) ∈ c4OrStore.classes_fts
  ∧ strContainsChar "com.test.OR" '*' = false
  ∧ strContainsChar "com.test.OR" '?' = false
  ∧ strStartsWith "com.test.OR" "regex:" = false
  ∧ ftsParseQuery "com.test.OR" = none
  ∧ searchClass (fun _ _ => false) (fun _ => 0) "com.test.OR" c4OrStore = [])
  ∧ (searchClass (fun _ _ => false) (fun _ => 0) "aaa.OR.test" c4OrStore
      = [("com.test.OR", [⟨1, "g", "a", "1.0.0", "/m", false⟩]),
         ("aaa.bbb", [⟨1, "g", "a", "1.0.0", "/m", false⟩])]
  ∧ strContainsSub (strToLower "com.test.OR") (strToLower "aaa.OR.test") = false
  ∧ strContainsSub (strToLower "aaa.bbb") (strToLower "aaa.OR.test") = false) := by
  decide

/-- C4 (amended): for every indexed fully-qualified name of at least three
characters, with no `*`, no `?` and no `regex:` prefix, whose artifact row
exists (every class row references one), whose spliced FTS query parses —
no FTS5 syntax error from an `OR`/`AND`/`NOT` name segment in operand
position — and such that at most 100 joined rows match that query under
FTS5's real operator semantics (so the `LIMIT 100` cannot drop the exact
row, whatever the opaque bm25 rank order does), `searchClass(fqName)`
returns an entry whose class name is exactly `fqName`: the quoted prefix
phrase is always the left-most `OR` disjunct of whatever the spliced words
parse to, and it matches the row itself. -/
theorem C4_amended_exact_search (rgx : String → String → Bool) (rank : ClassRow → Int)
    (st : Store) (fqName : String) (c : ClassRow) (a : ArtifactRow) (e : FtsExpr)
    (hnostar : strContainsChar fqName '*' = false)
    (hnoq : strContainsChar fqName '?' = false)
    (hnoregex : strStartsWith fqName "regex:" = false)
    (hlen : 3 ≤ fqName.length)
    (hc : c ∈ st.classes_fts)
    (hname : c.className = fqName)
    (hjoin : st.artifacts.find? (fun ar => ar.id = c.artifactId) = some a)
    (hparse : ftsParseQuery fqName = some e)
    (hcap : ((joinRows st).filter (fun r => ftsRowMatch e r.1)).length ≤ 100) :
    ∃ arts, (fqName, arts) ∈ searchClass rgx rank fqName st := by
  have hjmem : (c, a) ∈ joinRows st := by
    unfold joinRows
    refine List.mem_filterMap.mpr ⟨c, hc, ?_⟩
    rw [hjoin]
    rfl
  have hatom : ftsCoerce (ftsAtomEval c fqName) = true := by
    unfold ftsAtomEval
    rw [if_pos hlen, hname]
    simp [ftsCoerce, strContainsSub_self]
  have hmatch : ftsRowMatch e c = true :=
    ftsParseQuery_phrase fqName c e hparse hatom
  have hfmem : (c, a) ∈ (joinRows st).filter (fun r => ftsRowMatch e r.1) :=
    List.mem_filter.mpr ⟨hjmem, hmatch⟩
  have hsort := List.perm_insertionSort
    (fun x y : ClassRow × ArtifactRow => rank x.1 ≤ rank y.1)
    ((joinRows st).filter (fun r => ftsRowMatch e r.1))
  have hsmem : (c, a) ∈ ((joinRows st).filter
      (fun r => ftsRowMatch e r.1)).insertionSort
        (fun x y => rank x.1 ≤ rank y.1) :=
    hsort.mem_iff.mpr hfmem
  have hlen100 : (((joinRows st).filter
      (fun r => ftsRowMatch e r.1)).insertionSort
        (fun x y => rank x.1 ≤ rank y.1)).length ≤ 100 := by
    rw [hsort.length_eq]
    exact hcap
  have htake : ((((joinRows st).filter (fun r => ftsRowMatch e r.1)).insertionSort
      (fun x y => rank x.1 ≤ rank y.1)).take 100)
      = (((joinRows st).filter (fun r => ftsRowMatch e r.1)).insertionSort
        (fun x y => rank x.1 ≤ rank y.1)) :=
    List.take_of_length_le hlen100
  have hsearch : searchClass rgx rank fqName st =
      groupRows ((((joinRows st).filter (fun r => ftsRowMatch e r.1)).insertionSort
        (fun x y => rank x.1 ≤ rank y.1)).take 100) := by
    unfold searchClass
    rw [if_neg (by simp [hnoregex]), if_neg (by simp [hnostar, hnoq]), hparse]
  rw [hsearch, htake]
  have := groupRows_key _ (c, a) hsmem
  rw [show (c, a).1.className = fqName from hname] at this
  exact this

/-- Witness for C4 (amended) at a concrete store indexing
`com.example.Foo`, with the concrete parse of the spliced query: the
phrase, `OR`, and the adjacency chain of the three sanitized words. -/
theorem C4_amended_exact_search_witness :
    ∃ arts, ("com.example.Foo", arts) ∈
      searchClass (fun _ _ => false) (fun _ => 0) "com.example.Foo" c4FooStore :=
  C4_amended_exact_search (fun _ _ => false) (fun _ => 0) c4FooStore "com.example.Foo"
    ⟨1, "com.example.Foo", "Foo"⟩ ⟨1, "g", "a", "1.0.0", "/m", false, true⟩
    (.orE (.atom "com.example.Foo")
      (.andI (.andI (.atom "com") (.atom "example")) (.atom "Foo")))
    (by decide) (by decide) (by decide) (by decide) (by decide) rfl (by decide)
    (by decide) (by decide)

end MavenIndexer
